import Mathlib

/-!
# A shallow embedding of the MIPS simulator core in `computer.c`

The C source simulates a small MIPS subset one instruction at a time:
`Decode`, `Execute`, `UpdatePC`, `RegWrite`, in the order `Simulate` calls them.
C `int` values are modelled as `Int` kept in the signed 32-bit range by `wrap32`;
the `unsigned int` instruction word is a `Nat` below `2^32`.
-/

namespace MarsSim

/-! ## Machine integers -/

/-- Reduction of an integer to the signed 32-bit range (two's-complement wraparound of `int`). -/
def wrap32 (x : Int) : Int := (x + 2147483648) % 4294967296 - 2147483648

/-- Conversion of an `unsigned int` word to `int`, as happens when `Decode` passes its
`unsigned int instr` to `Decode_Op (int instr, ...)`. -/
def toInt32 (w : Nat) : Int := wrap32 (w : Int)

/-- The C expression `a << s` on `int`: the low 32 bits of the shifted pattern. A shift count
outside `0..31` is undefined in C; the model takes it modulo 32, as the x86 shift does. -/
def shl32 (a s : Int) : Int := wrap32 (a * 2 ^ (s % 32).toNat)

/-- The C expression `a >> s` on `int` (arithmetic shift, count taken modulo 32 as for `shl32`). -/
def shr32 (a s : Int) : Int := Int.shiftRight a (s % 32).toNat

/-! ## Opcode and function-code constants (`computer.c`, lines 29-51) -/

def addu : Int := 0x21
def subu : Int := 0x23
def sll : Int := 0x00
def srl : Int := 0x02
def and : Int := 0x24
def or : Int := 0x25
def slt : Int := 0x2a
def jr : Int := 0x08

def addiu : Int := 0x9
def andi : Int := 0x8
def ori : Int := 0xd
def beq : Int := 0x4
def lui : Int := 0xf
def bne : Int := 0x5
def lw : Int := 0x23
def sw : Int := 0x2b

def j : Int := 0x2
def jal : Int := 0x3

/-! ## Data model -/

/-- Modelled from the spec: `computer.h` is not among the sources. The fields of a
RegisterRegister instruction (`d->regs.r`): source, target and destination register index,
shift amount and function code, each a C `int`. -/
structure RRegs where
  rs : Int
  rt : Int
  rd : Int
  shamt : Int
  funct : Int
  deriving DecidableEq, Repr

/-- Modelled from the spec: `computer.h` is not among the sources. The fields of a
RegisterImmediate instruction (`d->regs.i`): source and target register index and the
32-bit sign-extended immediate. -/
structure IRegs where
  rs : Int
  rt : Int
  addr_or_immed : Int
  deriving DecidableEq, Repr

/-- Modelled from the spec: `computer.h` is not among the sources. The field of a Jump
instruction (`d->regs.j`): the 32-bit target address. -/
structure JRegs where
  target : Int
  deriving DecidableEq, Repr

/-- Modelled from the spec: `computer.h` is not among the sources. The format-specific fields
`d->regs`. The three variants are kept side by side; every stage modelled here reads only the
variant that the opcode selects, the one `Decode_Op` has just written. -/
structure Regs where
  r : RRegs
  i : IRegs
  j : JRegs
  deriving DecidableEq, Repr

/-- Modelled from the spec: `computer.h` is not among the sources. A decoded instruction:
the opcode and the format-specific fields. `Simulate` reuses one `DecodedInstr` for every
cycle, so the stages receive the previous content and overwrite parts of it. -/
structure DecodedInstr where
  op : Int
  regs : Regs
  deriving DecidableEq, Repr

/-- Modelled from the spec: `computer.h` is not among the sources. The architectural state
`mips`: the register file (indices 0..31 are the registers), the memory array and the program
counter, all C `int`s. -/
structure Computer where
  registers : Int → Int
  memory : Int → Int
  pc : Int

/-! ## Bit-field extraction -/

/-- The doubling loop of `Power`: `for (i = a; i > 0; i--) temp = 2 * temp;`. -/
def Power.loop : Nat → Int → Int
  | 0, temp => temp
  | n + 1, temp => Power.loop n (wrap32 (2 * temp))

/-- The function `Power` of the source: `1` when `a == 0`, otherwise `temp` doubled once for every
`i` from `a` down to `1` (no iteration at all when `a` is negative). -/
def Power (a : Int) : Int :=
  if a = 0 then 1 else Power.loop a.toNat 1

/-- The accumulation loop that the source repeats for every field:
`for (c = hi; c >= lo; c--) { k = instr >> c; if (k & 1) acc += Power(i); i--; }`.
The first argument after `lo` is the number of iterations left, so `c = lo + n`. -/
def bitLoop (instr : Int) (lo : Nat) : Nat → Int → Int → Int
  | 0, _, acc => acc
  | n + 1, i, acc =>
    let k := Int.shiftRight instr (lo + n)
    let acc := if Int.land k 1 ≠ 0 then wrap32 (acc + Power i) else acc
    bitLoop instr lo n (i - 1) acc

/-- First loop of `TwosComp`: `binary[j]` receives the digit of bit `c` for `c = 15 .. 0`,
`j` counting down from 15 alongside. Returns the final `j` and the array. The `char` cells hold
character codes: `49` is the digit `1` and `48` is the digit `0`. -/
def TwosComp.fill (instr : Int) : Nat → Int → List Int → Int × List Int
  | 0, j, binary => (j, binary)
  | n + 1, j, binary =>
    let k := Int.shiftRight instr n
    let binary := binary.set j.toNat (if Int.land k 1 ≠ 0 then 49 else 48)
    TwosComp.fill instr n (j - 1) binary

/-- Second loop of `TwosComp`: `onesComp[i]` is the flipped digit of `binary[i]`, `i = 0 .. 15`
(the first argument counts the iterations left). -/
def TwosComp.flip (binary : List Int) : Nat → List Int → List Int
  | 0, onesComp => onesComp
  | n + 1, onesComp =>
    let i := 15 - n
    let onesComp :=
      if binary.getD i 0 = 49 then onesComp.set i 48
      else if binary.getD i 0 = 48 then onesComp.set i 49
      else onesComp
    TwosComp.flip binary n onesComp

/-- Third loop of `TwosComp`: for `i = 16 .. 0`, add the carry into `onesComp[i]`. -/
def TwosComp.carryLoop (onesComp : List Int) : Nat → Int → List Int → List Int
  | 0, _, twosComp => twosComp
  | n + 1, carry, twosComp =>
    let i := n
    if onesComp.getD i 0 = 49 ∧ carry = 1 then
      TwosComp.carryLoop onesComp n carry (twosComp.set i 48)
    else if onesComp.getD i 0 = 48 ∧ carry = 1 then
      TwosComp.carryLoop onesComp n 0 (twosComp.set i 49)
    else
      TwosComp.carryLoop onesComp n carry (twosComp.set i (onesComp.getD i 0))

/-- Fourth loop of `TwosComp`: for `i = 15 .. 0`, `immediate += Power(j)` for every digit `1`,
with the `j` that the first loop left behind. -/
def TwosComp.sum (twosComp : List Int) (j : Int) : Nat → Int → Int
  | 0, immediate => immediate
  | n + 1, immediate =>
    let i := n
    let immediate := if twosComp.getD i 0 = 49 then wrap32 (immediate + Power j) else immediate
    TwosComp.sum twosComp j n immediate

/-- The function `TwosComp` of the source. The three `char[17]` arrays are uninitialised;
`garbage` is the character code of that indeterminate content. The only cell read before it is
written is `onesComp[16]`. -/
def TwosComp (instr : Int) (garbage : Int) : Int :=
  let init := List.replicate 17 garbage
  let (j, binary) := TwosComp.fill instr 16 15 init
  let onesComp := TwosComp.flip binary 16 init
  let twosComp := TwosComp.carryLoop onesComp 17 1 init
  let immediate := TwosComp.sum twosComp j 16 0
  wrap32 (0 - immediate)

/-! ## Decode -/

/-- The function `getRregisters`: five accumulation loops over bits 25-21, 20-16, 15-11, 10-6
and 5-0, stored into `d->regs.r`. -/
def getRregisters (d : DecodedInstr) (instr : Int) : DecodedInstr :=
  let rs := bitLoop instr 21 5 4 0
  let rt := bitLoop instr 16 5 4 0
  let rd := bitLoop instr 11 5 4 0
  let shamt := bitLoop instr 6 5 4 0
  let funct := bitLoop instr 0 6 5 0
  { d with regs := { d.regs with r := { rs := rs, rt := rt, rd := rd, shamt := shamt, funct := funct } } }

/-- The function `getIregisters`: loops over bits 25-21, 20-16 and 15-0; when bit 15 is set the
immediate is replaced by `TwosComp(instr)`. -/
def getIregisters (d : DecodedInstr) (instr : Int) (garbage : Int) : DecodedInstr :=
  let rs := bitLoop instr 21 5 4 0
  let rt := bitLoop instr 16 5 4 0
  let imm := bitLoop instr 0 16 15 0
  let k := Int.shiftRight instr 15
  let imm := if Int.land k 1 ≠ 0 then TwosComp instr garbage else imm
  { d with regs := { d.regs with i := { rs := rs, rt := rt, addr_or_immed := imm } } }

/-- The local `address` of `getJregisters` after its loop over bits 25-0, before the shift. -/
def getJregisters.address (instr : Int) : Int := bitLoop instr 0 26 25 0

/-- The function `getJregisters`: one loop over bits 25-0, then `address << 2`. -/
def getJregisters (d : DecodedInstr) (instr : Int) : DecodedInstr :=
  let address := getJregisters.address instr
  let address := shl32 address 2
  { d with regs := { d.regs with j := { target := address } } }

/-- The function `Decode_Op`: the opcode from bits 31-26, then the fields of the format that
the opcode selects. (`rVals` is never used and is left out.) -/
def Decode_Op (instr : Int) (d : DecodedInstr) (garbage : Int) : DecodedInstr :=
  let opCode := bitLoop instr 26 6 5 0
  let d := { d with op := opCode }
  let d := if d.op = 0 then getRregisters d instr else d
  let d := if d.op ≠ 0 ∧ d.op ≠ 2 ∧ d.op ≠ 3 then getIregisters d instr garbage else d
  let d := if d.op = 2 ∨ d.op = 3 then getJregisters d instr else d
  d

/-- The function `Decode`: `Decode_Op`, then `exit(1)` (here `none`) for an unsupported
function code or opcode. -/
def Decode (instr : Nat) (d : DecodedInstr) (garbage : Int) : Option DecodedInstr :=
  let d := Decode_Op (toInt32 instr) d garbage
  if d.op = 0 ∧ (d.regs.r.funct ≠ addu ∧ d.regs.r.funct ≠ subu ∧ d.regs.r.funct ≠ sll
      ∧ d.regs.r.funct ≠ srl ∧ d.regs.r.funct ≠ and ∧ d.regs.r.funct ≠ or
      ∧ d.regs.r.funct ≠ slt ∧ d.regs.r.funct ≠ jr) then none
  else if d.op ≠ 0 ∧ (d.op ≠ addiu ∧ d.op ≠ andi ∧ d.op ≠ ori ∧ d.op ≠ beq ∧ d.op ≠ lui
      ∧ d.op ≠ bne ∧ d.op ≠ lw ∧ d.op ≠ sw ∧ d.op ≠ j ∧ d.op ≠ jal) then none
  else some d

/-! ## Execute, UpdatePC, RegWrite -/

/-- The function `Execute`. The local `int val` is uninitialised; `val0` is its indeterminate
initial content, returned when no assignment fires. Inside the `d->op == 0` block the source
compares `d->op` (not `d->regs.r.funct`) with the function-code constants. -/
def Execute (d : DecodedInstr) (mips : Computer) (val0 : Int) : Int :=
  let val := val0
  let val :=
    if d.op = 0 then
      let val := if d.op = addu then
        wrap32 (mips.registers d.regs.r.rs + mips.registers d.regs.r.rt) else val
      let val := if d.op = subu then
        wrap32 (mips.registers d.regs.r.rs - mips.registers d.regs.r.rt) else val
      let val := if d.op = sll then
        shl32 (mips.registers d.regs.r.rt) (mips.registers d.regs.r.shamt) else val
      let val := if d.op = srl then
        shr32 (mips.registers d.regs.r.rs) (mips.registers d.regs.r.shamt) else val
      let val := if d.op = and then
        Int.land (mips.registers d.regs.r.rs) (mips.registers d.regs.r.rt) else val
      let val := if d.op = or then
        Int.lor (mips.registers d.regs.r.rs) (mips.registers d.regs.r.rt) else val
      let val := if d.op = slt then
        (if wrap32 (mips.registers d.regs.r.rs - mips.registers d.regs.r.rt) < 0 then 1 else 0)
        else val
      val
    else val
  let val :=
    if d.op ≠ 0 ∧ d.op ≠ 2 ∧ d.op ≠ 3 then
      let val := if d.op = addiu then
        wrap32 (mips.registers d.regs.i.rs + d.regs.i.addr_or_immed) else val
      let val := if d.op = andi then
        Int.land (mips.registers d.regs.i.rs) d.regs.i.addr_or_immed else val
      let val := if d.op = ori then
        Int.lor (mips.registers d.regs.i.rs) d.regs.i.addr_or_immed else val
      let val := if d.op = beq then
        wrap32 (mips.registers d.regs.i.rs - d.regs.i.rt) else val
      let val := if d.op = bne then
        wrap32 (mips.registers d.regs.i.rs - d.regs.i.addr_or_immed) else val
      let val := if d.op = lw then
        wrap32 (mips.registers d.regs.i.rs + d.regs.i.addr_or_immed) else val
      let val := if d.op = sw then
        wrap32 (mips.registers d.regs.i.rs + wrap32 (d.regs.i.addr_or_immed * 4)) else val
      val
    else val
  if d.op = jal then wrap32 (mips.pc + 4) else val

/-- The function `UpdatePC`: `pc += 4`, then the jump target for opcodes 2 and 3, then the branch
offset for `beq` with `val == 0`. (The `jr` and `bne` updates are commented out in the source.) -/
def UpdatePC (d : DecodedInstr) (val : Int) (mips : Computer) : Computer :=
  let mips := { mips with pc := wrap32 (mips.pc + 4) }
  let mips := if d.op = 2 ∨ d.op = 3 then { mips with pc := d.regs.j.target } else mips
  let mips := if d.op = beq ∧ val = 0 then
    { mips with pc := wrap32 (mips.pc + wrap32 (d.regs.i.addr_or_immed * 4)) } else mips
  mips

/-- Assignment `mips.registers[k] = v`. -/
def setReg (mips : Computer) (k v : Int) : Computer :=
  { mips with registers := fun n => if n = k then v else mips.registers n }

/-- The function `RegWrite`; returns the new state and the new `*changedReg`. -/
def RegWrite (d : DecodedInstr) (val : Int) (changedReg : Int) (mips : Computer) :
    Computer × Int :=
  let (mips, changedReg) :=
    if d.op = 0 then
      (setReg mips d.regs.r.rd (wrap32 (mips.registers d.regs.r.rd + val)), d.regs.r.rd)
    else (mips, changedReg)
  let (mips, changedReg) :=
    if d.op ≠ 0 ∧ d.op ≠ 2 ∧ d.op ≠ 3 then
      (setReg mips d.regs.i.rt (wrap32 (mips.registers d.regs.i.rt + val)), d.regs.i.rt)
    else (mips, changedReg)
  let (mips, changedReg) :=
    if d.op = 3 then (setReg mips 31 val, 31) else (mips, changedReg)
  let changedReg := if d.op = beq ∨ d.op = j ∨ d.op = jr then -1 else changedReg
  (mips, changedReg)

/-! ## One cycle of `Simulate` -/

/-- The variables that live across the iterations of the loop in `Simulate`: the global `mips`
and the locals `d` and `changedReg`. -/
structure SimState where
  mips : Computer
  d : DecodedInstr
  changedReg : Int

/-- The function `Fetch`: `mips.memory[(addr - 0x00400000) / 4]`, read as `unsigned int`. -/
def Fetch (mips : Computer) (addr : Int) : Nat :=
  (mips.memory (Int.tdiv (wrap32 (addr - 0x00400000)) 4) % 4294967296).toNat

/-- The stages that follow a successful `Decode` in one iteration of the loop in `Simulate`, in
the source order: `val = Execute(&d, &rVals)`, `UpdatePC(&d, val)`, `RegWrite(&d, val, &changedReg)`
(the call of `Mem` is commented out in the source). -/
def cycleStages (d : DecodedInstr) (val0 : Int) (s : SimState) : SimState :=
  let val := Execute d s.mips val0
  let mips := UpdatePC d val s.mips
  let written := RegWrite d val s.changedReg mips
  { mips := written.1, d := d, changedReg := written.2 }

/-- One iteration of the loop in `Simulate` on the fetched word `instr`: `Decode`, then the
remaining stages; `none` when `Decode` exits. -/
def cycle (instr : Nat) (garbage : Int) (val0 : Int) (s : SimState) : Option SimState :=
  (Decode instr s.d garbage).map (fun d => cycleStages d val0 s)

/-- What follows the call of `Decode` in one iteration: when `Decode` has called `exit(1)` the
process ends in the state it has reached (`Decode_Op` has filled `d`; nothing else has run),
reported as `Except.error`; otherwise the remaining stages run. -/
def exitOrContinue (s : SimState) (val0 : Int) (filled : DecodedInstr) :
    Option DecodedInstr → Except SimState SimState
  | none => Except.error { s with d := filled }
  | some d => Except.ok (cycleStages d val0 s)

/-- One iteration of the loop in `Simulate` on the fetched word `instr`, keeping the state in
which the process exits when `Decode` rejects the word. -/
def cycleOrExit (instr : Nat) (garbage : Int) (val0 : Int) (s : SimState) :
    Except SimState SimState :=
  exitOrContinue s val0 (Decode_Op (toInt32 instr) s.d garbage) (Decode instr s.d garbage)

/-! ## The loop of `Simulate` -/

/-- The state in which `Simulate` enters its loop: `mips.pc = 0x00400000`, `changedReg = -1`, and
the local `d` uninitialised (its indeterminate content is the argument `d`). -/
def Simulate.start (mips : Computer) (d : DecodedInstr) : SimState :=
  { mips := { mips with pc := 0x00400000 }, d := d, changedReg := -1 }

/-- One iteration of the loop in `Simulate`: `instr = Fetch (mips.pc)`, then the stages of
`cycle`; `none` when `Decode` exits. -/
def Simulate.iteration (garbage val0 : Int) (s : SimState) : Option SimState :=
  cycle (Fetch s.mips s.mips.pc) garbage val0 s

/-- A finite number of iterations of the loop in `Simulate`, one for every pair of indeterminate
values `(garbage, val0)` in the list; `none` as soon as `Decode` exits. -/
def Simulate.iterations : List (Int × Int) → SimState → Option SimState
  | [], s => some s
  | (garbage, val0) :: rest, s =>
    (Simulate.iteration garbage val0 s).bind (Simulate.iterations rest)

/-! ## Reference definitions taken from the specification -/

/-- The specification's direct bit-field extraction `(word >> low) & ((1 << width) - 1)`. -/
def extractBits (word low width : Nat) : Nat := (word >>> low) &&& ((1 <<< width) - 1)

/-- The specification's re-assembly of a RegisterRegister word from its fields:
`(op << 26) | (rs << 21) | (rt << 16) | (rd << 11) | (shamt << 6) | funct`. -/
def reassembleR (op rs rt rd shamt funct : Int) : Int :=
  Int.lor (Int.lor (Int.lor (Int.lor (Int.lor (op <<< (26 : Int)) (rs <<< (21 : Int)))
    (rt <<< (16 : Int))) (rd <<< (11 : Int))) (shamt <<< (6 : Int))) funct

/-- The specification's sign extension of a 16-bit field: `f` below `0x8000`, `f - 0x10000`
from `0x8000` on. -/
def signExtend16 (f : Nat) : Int := if f < 0x8000 then (f : Int) else (f : Int) - 0x10000

/-! ## Sample states for concrete evaluations -/

/-- A sample decoded instruction, `addiu $7, $9, 8`; it also serves as the content that the
`DecodedInstr` reused by `Simulate` holds from an earlier cycle. -/
def sampleInstr : DecodedInstr :=
  { op := 9, regs := { r := { rs := 1, rt := 2, rd := 3, shamt := 4, funct := 5 },
                       i := { rs := 9, rt := 7, addr_or_immed := 8 },
                       j := { target := 12 } } }

/-- A sample machine state: registers 1, 2, 4 and 9 hold 5, 3, 3 and 100, the others 0; the memory
is zeroed and the program counter is at the start of the code section. -/
def sampleComputer : Computer :=
  { registers := fun n => if n = 1 then 5 else if n = 2 then 3 else if n = 4 then 3
      else if n = 9 then 100 else 0,
    memory := fun _ => 0,
    pc := 0x00400000 }

/-- A sample state of the loop in `Simulate`. -/
def sampleState : SimState := { mips := sampleComputer, d := sampleInstr, changedReg := -1 }

/-! ## Arithmetic of the machine integers -/

theorem wrap32_of_range (x : Int) (h1 : -2147483648 ≤ x) (h2 : x < 2147483648) :
    wrap32 x = x := by
  unfold wrap32; omega

theorem land_zero_right (m : Int) : Int.land m 0 = 0 := by
  cases m with
  | ofNat m => show ((m &&& 0 : Nat) : Int) = 0; simp
  | negSucc m => show ((Nat.ldiff 0 m : Nat) : Int) = 0; simp [Nat.ldiff]

/-- The C test `k & 1` reads the parity of `k`. -/
theorem land_one (k : Int) : Int.land k 1 = k % 2 := by
  have h1 : Int.land (Int.bit (Int.bodd k) (Int.div2 k)) (Int.bit true 0)
      = Int.bit (Int.bodd k && true) (Int.land (Int.div2 k) 0) := Int.land_bit _ _ _ _
  rw [Int.bit_decomp, land_zero_right] at h1
  have h2 : Int.bit true 0 = 1 := by simp [Int.bit_val]
  rw [h2] at h1
  rw [h1, Int.bit_val]
  have h3 := Int.bodd_add_div2 k
  cases hb : Int.bodd k <;> simp [hb] at h3 ⊢ <;> omega

theorem Power_loop_eq (n : Nat) (t : Int) (h0 : 0 ≤ t) (h : t * 2 ^ n < 2147483648) :
    Power.loop n t = t * 2 ^ n := by
  induction n generalizing t with
  | zero => simp [Power.loop]
  | succ n ih =>
    have hp : (0 : Int) < 2 ^ n := by positivity
    have e : t * 2 ^ (n + 1) = (2 * t) * 2 ^ n := by ring
    have h2 : 2 * t < 2147483648 := by nlinarith
    rw [Power.loop, wrap32_of_range _ (by omega) h2, ih _ (by omega) (by rw [← e]; exact h), e]

/-- For exponents up to 30, `Power` is the power of two. -/
theorem Power_eq (n : Nat) (h : n ≤ 30) : Power (n : Int) = 2 ^ n := by
  have hp : (2 : Int) ^ n ≤ 2 ^ 30 := pow_le_pow_right₀ (by norm_num) h
  unfold Power
  split
  · next h0 =>
    have : n = 0 := by exact_mod_cast h0
    subst this; simp
  · rw [Int.toNat_ofNat, Power_loop_eq n 1 (by norm_num) (by norm_num at hp ⊢; omega)]
    simp

/-- Bit `c` of the word, as `Decode_Op` reads it from the signed `instr`. -/
theorem shiftRight_toInt32_mod (w c : Nat) (hw : w < 4294967296) (hc : c < 32) :
    Int.shiftRight (toInt32 w) c % 2 = ((w / 2 ^ c % 2 : Nat) : Int) := by
  have hs : Int.shiftRight (toInt32 w) c = toInt32 w / ((2 ^ c : Nat) : Int) :=
    Int.shiftRight_eq_div_pow _ _
  rw [hs]
  have hcast : ((2 ^ c : Nat) : Int) = (2 : Int) ^ c := by push_cast; rfl
  have hr : (((w / 2 ^ c % 2 : Nat)) : Int) = (w : Int) / (2 : Int) ^ c % 2 := by
    rw [Int.natCast_mod, Int.natCast_div, hcast]; rfl
  rw [hr, hcast]
  have hpos : ((2 : Int) ^ c) ≠ 0 := by positivity
  have hsplit : (2 : Int) * 2 ^ (31 - c) * 2 ^ c = 4294967296 := by
    have : (2 : Int) * 2 ^ (31 - c) * 2 ^ c = 2 ^ 32 := by
      have e : 31 - c + c + 1 = 32 := by omega
      rw [mul_assoc, ← pow_add, ← pow_succ', e]
    rw [this]; norm_num
  by_cases hlt : w < 2147483648
  · have : toInt32 w = w := by unfold toInt32; exact wrap32_of_range _ (by omega) (by omega)
    rw [this]
  · have : toInt32 w = (w : Int) + (-(2 * 2 ^ (31 - c))) * 2 ^ c := by
      rw [neg_mul, hsplit]; unfold toInt32 wrap32; omega
    rw [this, Int.add_mul_ediv_right _ _ hpos]
    generalize ((w : Int) / 2 ^ c) = a
    generalize ((2 : Int) ^ (31 - c)) = b
    omega

/-- The accumulation loop over `n` bits from bit `lo` upwards adds the field
`w / 2^lo % 2^n` to the accumulator. -/
theorem bitLoop_eq (w lo : Nat) (hw : w < 4294967296) (n : Nat) (hlo : lo + n ≤ 32)
    (hn : n ≤ 30) (acc : Int) (h0 : 0 ≤ acc) (h1 : acc + 2 ^ n ≤ 2147483648) :
    bitLoop (toInt32 w) lo n ((n : Int) - 1) acc = acc + ((w / 2 ^ lo % 2 ^ n : Nat) : Int) := by
  induction n generalizing acc with
  | zero => simp [bitLoop, Nat.mod_one]
  | succ n ih =>
    have hpn : (0 : Int) < 2 ^ n := by positivity
    have hpow : (2 : Int) ^ (n + 1) = 2 * 2 ^ n := pow_succ' 2 n
    have hbit := shiftRight_toInt32_mod w (lo + n) hw (by omega)
    have hi : (((n + 1 : Nat) : Int) - 1) = (n : Int) := by push_cast; ring
    have hsplit : w / 2 ^ lo % 2 ^ (n + 1)
        = w / 2 ^ lo % 2 ^ n + 2 ^ n * (w / 2 ^ (lo + n) % 2) := by
      rw [Nat.mod_pow_succ, Nat.div_div_eq_div_mul, ← pow_add]
    rw [bitLoop, hi, land_one, hbit, Power_eq n (by omega), hsplit]
    have hb : w / 2 ^ (lo + n) % 2 < 2 := Nat.mod_lt _ (by norm_num)
    generalize w / 2 ^ (lo + n) % 2 = b at hb ⊢
    interval_cases b
    · simp only [Nat.cast_zero, ne_eq, not_true_eq_false, if_false]
      rw [ih (by omega) (by omega) acc h0 (by omega)]
      simp
    · simp only [Nat.cast_one, ne_eq, one_ne_zero, not_false_eq_true, if_true]
      rw [wrap32_of_range _ (by omega) (by omega), ih (by omega) (by omega) _ (by omega) (by omega)]
      push_cast; ring

theorem extractBits_eq (w lo n : Nat) : extractBits w lo n = w / 2 ^ lo % 2 ^ n := by
  unfold extractBits
  rw [Nat.shiftRight_eq_div_pow, Nat.shiftLeft_eq, one_mul, Nat.and_pow_two_sub_one_eq_mod]

theorem extractBits_lt (w lo n : Nat) : extractBits w lo n < 2 ^ n := by
  rw [extractBits_eq]; exact Nat.mod_lt _ (by positivity)

theorem loop5 (w lo : Nat) (hw : w < 4294967296) (hlo : lo + 5 ≤ 32) :
    bitLoop (toInt32 w) lo 5 4 0 = (extractBits w lo 5 : Int) := by
  have h := bitLoop_eq w lo hw 5 hlo (by norm_num) 0 (by norm_num) (by norm_num)
  rw [extractBits_eq]
  simpa using h

theorem loop6 (w lo : Nat) (hw : w < 4294967296) (hlo : lo + 6 ≤ 32) :
    bitLoop (toInt32 w) lo 6 5 0 = (extractBits w lo 6 : Int) := by
  have h := bitLoop_eq w lo hw 6 hlo (by norm_num) 0 (by norm_num) (by norm_num)
  rw [extractBits_eq]
  simpa using h

theorem loop16 (w : Nat) (hw : w < 4294967296) :
    bitLoop (toInt32 w) 0 16 15 0 = (extractBits w 0 16 : Int) := by
  have h := bitLoop_eq w 0 hw 16 (by norm_num) (by norm_num) 0 (by norm_num) (by norm_num)
  rw [extractBits_eq]
  simpa using h

theorem loop26 (w : Nat) (hw : w < 4294967296) :
    bitLoop (toInt32 w) 0 26 25 0 = (extractBits w 0 26 : Int) := by
  have h := bitLoop_eq w 0 hw 26 (by norm_num) (by norm_num) 0 (by norm_num) (by norm_num)
  rw [extractBits_eq]
  simpa using h

theorem bit15 (w : Nat) (hw : w < 4294967296) :
    Int.land (Int.shiftRight (toInt32 w) 15) 1 = (extractBits w 15 1 : Int) := by
  rw [land_one, shiftRight_toInt32_mod w 15 hw (by norm_num), extractBits_eq]
  simp

/-! ## The decoder's fields -/

theorem Decode_Op_op_loop (instr : Int) (d : DecodedInstr) (g : Int) :
    (Decode_Op instr d g).op = bitLoop instr 26 6 5 0 := by
  unfold Decode_Op
  generalize bitLoop instr 26 6 5 0 = o
  dsimp only
  split_ifs <;> rfl

theorem Decode_Op_r_loop (instr : Int) (d : DecodedInstr) (g : Int)
    (h : bitLoop instr 26 6 5 0 = 0) :
    (Decode_Op instr d g).regs.r = (getRregisters d instr).regs.r := by
  unfold Decode_Op
  rw [h]
  rfl

theorem Decode_Op_i_loop (instr : Int) (d : DecodedInstr) (g : Int)
    (h0 : bitLoop instr 26 6 5 0 ≠ 0) (h2 : bitLoop instr 26 6 5 0 ≠ 2)
    (h3 : bitLoop instr 26 6 5 0 ≠ 3) :
    (Decode_Op instr d g).regs.i = (getIregisters d instr g).regs.i := by
  unfold Decode_Op
  generalize bitLoop instr 26 6 5 0 = o at h0 h2 h3
  simp [h0, h2, h3, getIregisters]

theorem Decode_Op_j_loop (instr : Int) (d : DecodedInstr) (g : Int)
    (h : bitLoop instr 26 6 5 0 = 2 ∨ bitLoop instr 26 6 5 0 = 3) :
    (Decode_Op instr d g).regs.j = (getJregisters d instr).regs.j := by
  unfold Decode_Op
  generalize bitLoop instr 26 6 5 0 = o at h
  rcases h with h | h <;> simp [h, getJregisters]


theorem getRregisters_r (w : Nat) (hw : w < 4294967296) (d : DecodedInstr) :
    (getRregisters d (toInt32 w)).regs.r =
      { rs := (extractBits w 21 5 : Int), rt := (extractBits w 16 5 : Int),
        rd := (extractBits w 11 5 : Int), shamt := (extractBits w 6 5 : Int),
        funct := (extractBits w 0 6 : Int) } := by
  show ({ rs := bitLoop (toInt32 w) 21 5 4 0, rt := bitLoop (toInt32 w) 16 5 4 0,
          rd := bitLoop (toInt32 w) 11 5 4 0, shamt := bitLoop (toInt32 w) 6 5 4 0,
          funct := bitLoop (toInt32 w) 0 6 5 0 } : RRegs) = _
  rw [loop5 w 21 hw (by norm_num), loop5 w 16 hw (by norm_num), loop5 w 11 hw (by norm_num),
    loop5 w 6 hw (by norm_num), loop6 w 0 hw (by norm_num)]

theorem getIregisters_i (w : Nat) (hw : w < 4294967296) (d : DecodedInstr) (g : Int) :
    (getIregisters d (toInt32 w) g).regs.i =
      { rs := (extractBits w 21 5 : Int), rt := (extractBits w 16 5 : Int),
        addr_or_immed := if (extractBits w 15 1 : Int) ≠ 0 then TwosComp (toInt32 w) g
          else (extractBits w 0 16 : Int) } := by
  show ({ rs := bitLoop (toInt32 w) 21 5 4 0, rt := bitLoop (toInt32 w) 16 5 4 0,
          addr_or_immed := if Int.land (Int.shiftRight (toInt32 w) 15) 1 ≠ 0
            then TwosComp (toInt32 w) g else bitLoop (toInt32 w) 0 16 15 0 } : IRegs) = _
  rw [loop5 w 21 hw (by norm_num), loop5 w 16 hw (by norm_num), loop16 w hw, bit15 w hw]

theorem shl32_two (a : Nat) (ha : a < 2 ^ 26) : shl32 (a : Int) 2 = ((a <<< 2 : Nat) : Int) := by
  have h4 : ((2 : Int) % 32).toNat = 2 := by decide
  have hp : (2 : Nat) ^ 26 = 67108864 := by norm_num
  rw [hp] at ha
  unfold shl32
  rw [h4, Nat.shiftLeft_eq, wrap32_of_range _ (by omega) (by omega)]
  push_cast; ring

theorem getJregisters_target (w : Nat) (hw : w < 4294967296) (d : DecodedInstr) :
    (getJregisters d (toInt32 w)).regs.j.target = ((extractBits w 0 26 <<< 2 : Nat) : Int) := by
  show shl32 (bitLoop (toInt32 w) 0 26 25 0) 2 = _
  rw [loop26 w hw, shl32_two _ (extractBits_lt _ _ _)]

theorem Decode_Op_op (w : Nat) (hw : w < 4294967296) (d : DecodedInstr) (g : Int) :
    (Decode_Op (toInt32 w) d g).op = (extractBits w 26 6 : Int) := by
  rw [Decode_Op_op_loop, loop6 w 26 hw (by norm_num)]

theorem Decode_Op_r (w : Nat) (hw : w < 4294967296) (d : DecodedInstr) (g : Int)
    (hop : extractBits w 26 6 = 0) :
    (Decode_Op (toInt32 w) d g).regs.r =
      { rs := (extractBits w 21 5 : Int), rt := (extractBits w 16 5 : Int),
        rd := (extractBits w 11 5 : Int), shamt := (extractBits w 6 5 : Int),
        funct := (extractBits w 0 6 : Int) } := by
  rw [Decode_Op_r_loop _ _ _ (by rw [loop6 w 26 hw (by norm_num), hop]; rfl),
    getRregisters_r w hw]

theorem Decode_Op_i (w : Nat) (hw : w < 4294967296) (d : DecodedInstr) (g : Int)
    (h0 : extractBits w 26 6 ≠ 0) (h2 : extractBits w 26 6 ≠ 2) (h3 : extractBits w 26 6 ≠ 3) :
    (Decode_Op (toInt32 w) d g).regs.i =
      { rs := (extractBits w 21 5 : Int), rt := (extractBits w 16 5 : Int),
        addr_or_immed := if (extractBits w 15 1 : Int) ≠ 0 then TwosComp (toInt32 w) g
          else (extractBits w 0 16 : Int) } := by
  have h := loop6 w 26 hw (by norm_num)
  rw [Decode_Op_i_loop _ _ _ (by rw [h]; exact_mod_cast h0) (by rw [h]; exact_mod_cast h2)
    (by rw [h]; exact_mod_cast h3), getIregisters_i w hw]

theorem Decode_Op_j (w : Nat) (hw : w < 4294967296) (d : DecodedInstr) (g : Int)
    (hop : extractBits w 26 6 = 2 ∨ extractBits w 26 6 = 3) :
    (Decode_Op (toInt32 w) d g).regs.j.target = ((extractBits w 0 26 <<< 2 : Nat) : Int) := by
  have h := loop6 w 26 hw (by norm_num)
  rw [Decode_Op_j_loop _ _ _ (by rw [h]; exact_mod_cast hop), getJregisters_target w hw]

/-! ## Re-assembly of a RegisterRegister word -/

theorem or_eq_add (x b i : Nat) (hx : 2 ^ i ∣ x) (hb : b < 2 ^ i) : x ||| b = x + b := by
  obtain ⟨a, rfl⟩ := hx
  exact (Nat.mul_add_lt_is_or hb a).symm

theorem reassemble_nat (w : Nat) (hw : w < 2 ^ 26) :
    ((((((0 : Nat) <<< 26 ||| (w / 2 ^ 21 % 2 ^ 5) <<< 21) ||| (w / 2 ^ 16 % 2 ^ 5) <<< 16)
      ||| (w / 2 ^ 11 % 2 ^ 5) <<< 11) ||| (w / 2 ^ 6 % 2 ^ 5) <<< 6) ||| (w / 2 ^ 0 % 2 ^ 6)) = w := by
  simp only [Nat.shiftLeft_eq, Nat.zero_mul, Nat.zero_or]
  norm_num at hw ⊢
  have h1 : w / 2097152 % 32 * 2097152 ||| w / 65536 % 32 * 65536
      = w / 2097152 % 32 * 2097152 + w / 65536 % 32 * 65536 :=
    or_eq_add _ _ 21 (by norm_num) (by norm_num; omega)
  have h2 : (w / 2097152 % 32 * 2097152 + w / 65536 % 32 * 65536) ||| w / 2048 % 32 * 2048
      = w / 2097152 % 32 * 2097152 + w / 65536 % 32 * 65536 + w / 2048 % 32 * 2048 :=
    or_eq_add _ _ 16 (by norm_num; omega) (by norm_num; omega)
  have h3 : (w / 2097152 % 32 * 2097152 + w / 65536 % 32 * 65536 + w / 2048 % 32 * 2048)
        ||| w / 64 % 32 * 64
      = w / 2097152 % 32 * 2097152 + w / 65536 % 32 * 65536 + w / 2048 % 32 * 2048
        + w / 64 % 32 * 64 :=
    or_eq_add _ _ 11 (by norm_num; omega) (by norm_num; omega)
  have h4 : (w / 2097152 % 32 * 2097152 + w / 65536 % 32 * 65536 + w / 2048 % 32 * 2048
        + w / 64 % 32 * 64) ||| w % 64
      = w / 2097152 % 32 * 2097152 + w / 65536 % 32 * 65536 + w / 2048 % 32 * 2048
        + w / 64 % 32 * 64 + w % 64 :=
    or_eq_add _ _ 6 (by norm_num; omega) (by norm_num; omega)
  rw [h1, h2, h3, h4]
  omega

theorem reassembleR_cast (o a b c e f : Nat) :
    reassembleR (o : Int) (a : Int) (b : Int) (c : Int) (e : Int) (f : Int)
      = ((((((o <<< 26 ||| a <<< 21) ||| b <<< 16) ||| c <<< 11) ||| e <<< 6) ||| f : Nat) : Int) := by
  unfold reassembleR
  rw [show (26 : Int) = ((26 : Nat) : Int) from rfl, show (21 : Int) = ((21 : Nat) : Int) from rfl,
    show (16 : Int) = ((16 : Nat) : Int) from rfl, show (11 : Int) = ((11 : Nat) : Int) from rfl,
    show (6 : Int) = ((6 : Nat) : Int) from rfl]
  simp only [Int.shiftLeft_coe_nat]
  rfl

theorem lt_of_opcode_zero (w : Nat) (hw : w < 4294967296) (hop : extractBits w 26 6 = 0) :
    w < 2 ^ 26 := by
  rw [extractBits_eq] at hop
  norm_num at hop ⊢
  omega

theorem reassembleR_Decode_Op (w : Nat) (hw : w < 4294967296) (hop : extractBits w 26 6 = 0)
    (d : DecodedInstr) (g : Int) :
    reassembleR (Decode_Op (toInt32 w) d g).op (Decode_Op (toInt32 w) d g).regs.r.rs
      (Decode_Op (toInt32 w) d g).regs.r.rt (Decode_Op (toInt32 w) d g).regs.r.rd
      (Decode_Op (toInt32 w) d g).regs.r.shamt (Decode_Op (toInt32 w) d g).regs.r.funct
      = (w : Int) := by
  rw [Decode_Op_r w hw d g hop, Decode_Op_op w hw d g, hop, reassembleR_cast]
  simp only [extractBits_eq]
  rw [reassemble_nat w (lt_of_opcode_zero w hw hop)]

/-! ## Which words `Decode` accepts -/

theorem Decode_eq_some (w : Nat) (d r : DecodedInstr) (g : Int) (h : Decode w d g = some r) :
    r = Decode_Op (toInt32 w) d g := by
  unfold Decode at h
  dsimp only at h
  split_ifs at h
  exact (Option.some.inj h).symm

theorem Decode_of_isSome (w : Nat) (d : DecodedInstr) (g : Int)
    (h : (Decode w d g).isSome = true) : Decode w d g = some (Decode_Op (toInt32 w) d g) := by
  obtain ⟨r, hr⟩ := Option.isSome_iff_exists.mp h
  rw [hr, Decode_eq_some w d r g hr]

theorem Decode_isSome_iff (w : Nat) (hw : w < 4294967296) (d : DecodedInstr) (g : Int) :
    (Decode w d g).isSome = true ↔
      (extractBits w 26 6 = 0
        ∧ extractBits w 0 6 ∈ [0x21, 0x23, 0x00, 0x02, 0x24, 0x25, 0x2a, 0x08])
      ∨ extractBits w 26 6 ∈ [0x9, 0x8, 0xd, 0x4, 0xf, 0x5, 0x23, 0x2b, 0x2, 0x3] := by
  have hop := Decode_Op_op w hw d g
  have ho := extractBits_lt w 26 6
  have hf := extractBits_lt w 0 6
  unfold Decode
  by_cases h0 : extractBits w 26 6 = 0
  · have hr := Decode_Op_r w hw d g h0
    generalize Decode_Op (toInt32 w) d g = D at hop hr
    generalize extractBits w 0 6 = f at hr hf
    rw [h0] at hop
    norm_num at hf
    simp only [hop, hr, addu, subu, sll, srl, and, or, slt, jr, h0]
    interval_cases f <;> simp
  · generalize Decode_Op (toInt32 w) d g = D at hop
    generalize extractBits w 26 6 = o at hop ho h0
    norm_num at ho
    simp only [hop, addiu, andi, ori, beq, lui, bne, lw, sw, j, jal]
    interval_cases o <;> simp at h0 ⊢

/-! ## Evaluation of the stages -/

theorem Execute_R (d : DecodedInstr) (mips : Computer) (val0 : Int) (h : d.op = 0) :
    Execute d mips val0
      = shl32 (mips.registers d.regs.r.rt) (mips.registers d.regs.r.shamt) := by
  simp [Execute, h, addu, subu, sll, srl, and, or, slt, jal]

theorem Execute_addiu (d : DecodedInstr) (mips : Computer) (val0 : Int) (h : d.op = 9) :
    Execute d mips val0 = wrap32 (mips.registers d.regs.i.rs + d.regs.i.addr_or_immed) := by
  simp [Execute, h, addiu, andi, ori, beq, bne, lw, sw, jal]

theorem Execute_lw (d : DecodedInstr) (mips : Computer) (val0 : Int) (h : d.op = 0x23) :
    Execute d mips val0 = wrap32 (mips.registers d.regs.i.rs + d.regs.i.addr_or_immed) := by
  simp [Execute, h, addiu, andi, ori, beq, bne, lw, sw, jal]

theorem Execute_sw (d : DecodedInstr) (mips : Computer) (val0 : Int) (h : d.op = 0x2b) :
    Execute d mips val0
      = wrap32 (mips.registers d.regs.i.rs + wrap32 (d.regs.i.addr_or_immed * 4)) := by
  simp [Execute, h, addiu, andi, ori, beq, bne, lw, sw, jal]

theorem Execute_j (d : DecodedInstr) (mips : Computer) (val0 : Int) (h : d.op = 2) :
    Execute d mips val0 = val0 := by
  simp [Execute, h, jal]

theorem Execute_jal (d : DecodedInstr) (mips : Computer) (val0 : Int) (h : d.op = 3) :
    Execute d mips val0 = wrap32 (mips.pc + 4) := by
  simp [Execute, h, jal]

theorem UpdatePC_jump (d : DecodedInstr) (val : Int) (mips : Computer)
    (h : d.op = 2 ∨ d.op = 3) : (UpdatePC d val mips).pc = d.regs.j.target := by
  rcases h with h | h <;> simp [UpdatePC, h, beq]

theorem RegWrite_j (d : DecodedInstr) (val cr : Int) (mips : Computer) (h : d.op = 2) :
    RegWrite d val cr mips = (mips, -1) := by
  simp [RegWrite, h, beq, j, jr]

theorem RegWrite_jal (d : DecodedInstr) (val cr : Int) (mips : Computer) (h : d.op = 3) :
    RegWrite d val cr mips = (setReg mips 31 val, 31) := by
  simp [RegWrite, h, beq, j, jr]

/-! ## What `TwosComp` returns -/

theorem TwosComp_fill_fst (instr : Int) (n : Nat) (j : Int) (b : List Int) :
    (TwosComp.fill instr n j b).1 = j - n := by
  induction n generalizing j b with
  | zero => simp [TwosComp.fill]
  | succ n ih => rw [TwosComp.fill, ih]; push_cast; ring

theorem TwosComp_sum_range (tc : List Int) (n : Nat) (acc : Int) (h0 : 0 ≤ acc)
    (h1 : acc + n < 2147483648) :
    acc ≤ TwosComp.sum tc (-1) n acc ∧ TwosComp.sum tc (-1) n acc ≤ acc + n := by
  induction n generalizing acc with
  | zero => simp [TwosComp.sum]
  | succ n ih =>
    have hP : Power (-1) = 1 := rfl
    rw [TwosComp.sum]
    push_cast at h1 ⊢
    split_ifs
    · rw [hP, wrap32_of_range _ (by omega) (by omega)]
      have := ih (acc + 1) (by omega) (by omega)
      omega
    · have := ih acc h0 (by omega)
      omega

/-- Whatever the word and the stale array content, `TwosComp` returns a value in `-16 .. 0`:
minus the number of `1` digits it has written. -/
theorem TwosComp_range (instr g : Int) : -16 ≤ TwosComp instr g ∧ TwosComp instr g ≤ 0 := by
  have hj : (TwosComp.fill instr 16 15 (List.replicate 17 g)).1 = -1 := by
    rw [TwosComp_fill_fst]; norm_num
  have h := TwosComp_sum_range
    (TwosComp.carryLoop (TwosComp.flip (TwosComp.fill instr 16 15 (List.replicate 17 g)).2 16
      (List.replicate 17 g)) 17 1 (List.replicate 17 g))
    16 0 (le_refl 0) (by norm_num)
  unfold TwosComp
  dsimp only
  rw [hj, wrap32_of_range _ (by omega) (by omega)]
  omega

/-! ## One cycle on jump words -/

theorem cycle_of_Decode (w : Nat) (s : SimState) (g val0 : Int) (r : DecodedInstr)
    (hD : Decode w s.d g = some r) : cycle w g val0 s = some (cycleStages r val0 s) := by
  unfold cycle
  rw [hD]
  rfl

theorem cycleStages_j (s : SimState) (val0 : Int) (r : DecodedInstr) (ho : r.op = 2) :
    cycleStages r val0 s = { mips := UpdatePC r val0 s.mips, d := r, changedReg := -1 } := by
  unfold cycleStages
  dsimp only
  rw [Execute_j _ _ _ ho, RegWrite_j _ _ _ _ ho]

theorem cycleStages_jal (s : SimState) (val0 : Int) (r : DecodedInstr) (ho : r.op = 3) :
    cycleStages r val0 s =
      { mips := setReg (UpdatePC r (wrap32 (s.mips.pc + 4)) s.mips) 31 (wrap32 (s.mips.pc + 4)),
        d := r, changedReg := 31 } := by
  unfold cycleStages
  dsimp only
  rw [Execute_jal _ _ _ ho, RegWrite_jal _ _ _ _ ho]

theorem Decode_jump (w : Nat) (hw : w < 4294967296) (d : DecodedInstr) (g : Int)
    (hop : extractBits w 26 6 = 2 ∨ extractBits w 26 6 = 3) :
    Decode w d g = some (Decode_Op (toInt32 w) d g) := by
  apply Decode_of_isSome
  rw [Decode_isSome_iff w hw d g]
  rcases hop with h | h <;> rw [h] <;> simp

theorem Decode_Op_op_eq (w : Nat) (hw : w < 4294967296) (d : DecodedInstr) (g : Int) (k : Nat)
    (hop : extractBits w 26 6 = k) : (Decode_Op (toInt32 w) d g).op = (k : Int) := by
  rw [Decode_Op_op w hw d g, hop]

theorem setReg_same (mips : Computer) (k v : Int) : (setReg mips k v).registers k = v := by
  simp [setReg]

theorem setReg_other (mips : Computer) (k v n : Int) (h : n ≠ k) :
    (setReg mips k v).registers n = mips.registers n := by
  simp [setReg, h]

theorem setReg_pc (mips : Computer) (k v : Int) : (setReg mips k v).pc = mips.pc := rfl

/-! ## Further evaluation lemmas for the stages -/

theorem Execute_lui (d : DecodedInstr) (mips : Computer) (val0 : Int) (h : d.op = 0xf) :
    Execute d mips val0 = val0 := by
  simp [Execute, h, addiu, andi, ori, beq, bne, lw, sw, jal]

theorem Execute_beq (d : DecodedInstr) (mips : Computer) (val0 : Int) (h : d.op = 4) :
    Execute d mips val0 = wrap32 (mips.registers d.regs.i.rs - d.regs.i.rt) := by
  simp [Execute, h, addiu, andi, ori, beq, bne, lw, sw, jal]

theorem Execute_bne (d : DecodedInstr) (mips : Computer) (val0 : Int) (h : d.op = 5) :
    Execute d mips val0 = wrap32 (mips.registers d.regs.i.rs - d.regs.i.addr_or_immed) := by
  simp [Execute, h, addiu, andi, ori, beq, bne, lw, sw, jal]

theorem UpdatePC_sequential (d : DecodedInstr) (val : Int) (mips : Computer)
    (h2 : d.op ≠ 2) (h3 : d.op ≠ 3) (h4 : d.op ≠ 4) :
    (UpdatePC d val mips).pc = wrap32 (mips.pc + 4) := by
  simp [UpdatePC, h2, h3, h4, beq]

theorem UpdatePC_beq (d : DecodedInstr) (val : Int) (mips : Computer) (h : d.op = 4) :
    (UpdatePC d val mips).pc =
      if val = 0 then wrap32 (wrap32 (mips.pc + 4) + wrap32 (d.regs.i.addr_or_immed * 4))
      else wrap32 (mips.pc + 4) := by
  by_cases hv : val = 0 <;> simp [UpdatePC, h, hv, beq]

theorem RegWrite_R (d : DecodedInstr) (val cr : Int) (mips : Computer) (h : d.op = 0) :
    RegWrite d val cr mips
      = (setReg mips d.regs.r.rd (wrap32 (mips.registers d.regs.r.rd + val)), d.regs.r.rd) := by
  simp [RegWrite, h, beq, j, jr]

theorem RegWrite_I (d : DecodedInstr) (val cr : Int) (mips : Computer)
    (h0 : d.op ≠ 0) (h2 : d.op ≠ 2) (h3 : d.op ≠ 3) :
    RegWrite d val cr mips
      = (setReg mips d.regs.i.rt (wrap32 (mips.registers d.regs.i.rt + val)),
          if d.op = 4 ∨ d.op = 8 then -1 else d.regs.i.rt) := by
  simp [RegWrite, h0, h2, h3, beq, j, jr]

/-! ## Decoding concrete words -/

/-- Decoding of a concrete I-format word whose bit 15 is clear: opcode, `rs`, `rt` and immediate
are read off the word. -/
theorem Decode_I_word (w : Nat) (hw : w < 4294967296) (d : DecodedInstr) (g : Int)
    (o rs rt imm : Nat) (hop : extractBits w 26 6 = o)
    (hlegal : o ∈ [0x9, 0x8, 0xd, 0x4, 0xf, 0x5, 0x23, 0x2b])
    (hrs : extractBits w 21 5 = rs) (hrt : extractBits w 16 5 = rt)
    (h15 : extractBits w 15 1 = 0) (himm : extractBits w 0 16 = imm) :
    ∃ r, Decode w d g = some r ∧ r.op = (o : Int)
      ∧ r.regs.i = { rs := (rs : Int), rt := (rt : Int), addr_or_immed := (imm : Int) } := by
  have h023 : o ≠ 0 ∧ o ≠ 2 ∧ o ≠ 3 := by
    simp only [List.mem_cons, List.mem_singleton, List.not_mem_nil, or_false] at hlegal
    omega
  have hD := Decode_of_isSome w d g ((Decode_isSome_iff w hw d g).mpr (Or.inr (by
    rw [hop]
    simp only [List.mem_cons, List.mem_singleton, List.not_mem_nil, or_false] at hlegal ⊢
    omega)))
  have hi := Decode_Op_i w hw d g (by rw [hop]; exact h023.1) (by rw [hop]; exact h023.2.1)
    (by rw [hop]; exact h023.2.2)
  rw [hrs, hrt, h15, himm] at hi
  exact ⟨_, hD, Decode_Op_op_eq w hw d g o hop, by rw [hi]; simp⟩

/-- Decoding of a concrete R-format word with a supported function code: the five fields are
read off the word. -/
theorem Decode_R_word (w : Nat) (hw : w < 4294967296) (d : DecodedInstr) (g : Int)
    (rs rt rd sh f : Nat) (hop : extractBits w 26 6 = 0)
    (hrs : extractBits w 21 5 = rs) (hrt : extractBits w 16 5 = rt)
    (hrd : extractBits w 11 5 = rd) (hsh : extractBits w 6 5 = sh) (hf : extractBits w 0 6 = f)
    (hlegal : f ∈ [0x21, 0x23, 0x00, 0x02, 0x24, 0x25, 0x2a, 0x08]) :
    ∃ r, Decode w d g = some r ∧ r.op = 0
      ∧ r.regs.r =
        { rs := (rs : Int), rt := (rt : Int), rd := (rd : Int), shamt := (sh : Int),
          funct := (f : Int) } := by
  have hD := Decode_of_isSome w d g ((Decode_isSome_iff w hw d g).mpr
    (Or.inl ⟨hop, by rw [hf]; exact hlegal⟩))
  have hr := Decode_Op_r w hw d g hop
  rw [hrs, hrt, hrd, hsh, hf] at hr
  exact ⟨_, hD, Decode_Op_op_eq w hw d g 0 hop, hr⟩

theorem Decode_eq_none_iff (w : Nat) (hw : w < 4294967296) (d : DecodedInstr) (g : Int) :
    Decode w d g = none ↔
      ¬ ((extractBits w 26 6 = 0
          ∧ extractBits w 0 6 ∈ [0x21, 0x23, 0x00, 0x02, 0x24, 0x25, 0x2a, 0x08])
        ∨ extractBits w 26 6 ∈ [0x9, 0x8, 0xd, 0x4, 0xf, 0x5, 0x23, 0x2b, 0x2, 0x3]) := by
  rw [← Decode_isSome_iff w hw d g]
  cases Decode w d g <;> simp

/-! ## Words that `Decode` rejects -/

theorem cycle_none_of_Decode (w : Nat) (s : SimState) (g val0 : Int)
    (h : Decode w s.d g = none) : cycle w g val0 s = none := by
  unfold cycle
  rw [h]
  rfl

theorem cycleOrExit_of_Decode_none (w : Nat) (s : SimState) (g val0 : Int)
    (h : Decode w s.d g = none) :
    cycleOrExit w g val0 s = Except.error { s with d := Decode_Op (toInt32 w) s.d g } := by
  unfold cycleOrExit
  rw [h]
  rfl

theorem Decode_allOnes (d : DecodedInstr) (g : Int) : Decode 0xFFFFFFFF d g = none := by
  rw [Decode_eq_none_iff _ (by norm_num)]
  rw [show extractBits 0xFFFFFFFF 26 6 = 63 from rfl]
  simp

theorem Decode_undefined_funct (d : DecodedInstr) (g : Int) : Decode 0x0000003F d g = none := by
  rw [Decode_eq_none_iff _ (by norm_num)]
  rw [show extractBits 0x0000003F 26 6 = 0 from rfl, show extractBits 0x0000003F 0 6 = 63 from rfl]
  simp

/-! ## Alignment of the program counter -/

theorem wrap32_mod_four (x : Int) (h : x % 4 = 0) : wrap32 x % 4 = 0 := by
  unfold wrap32; omega

theorem shl32_two_mod_four (a : Int) : shl32 a 2 % 4 = 0 := by
  have h4 : ((2 : Int) % 32).toNat = 2 := by decide
  unfold shl32
  rw [h4]
  apply wrap32_mod_four
  omega

/-- The jump target that `Decode_Op` stores for the opcodes 2 and 3 is a multiple of 4. -/
theorem Decode_Op_target_aligned (instr : Int) (d : DecodedInstr) (g : Int)
    (h : (Decode_Op instr d g).op = 2 ∨ (Decode_Op instr d g).op = 3) :
    (Decode_Op instr d g).regs.j.target % 4 = 0 := by
  rw [Decode_Op_op_loop] at h
  rw [Decode_Op_j_loop instr d g h]
  exact shl32_two_mod_four _

/-- The stage `UpdatePC` keeps the PC a multiple of 4 when the jump target is one. -/
theorem UpdatePC_aligned (d : DecodedInstr) (val : Int) (mips : Computer)
    (ht : d.op = 2 ∨ d.op = 3 → d.regs.j.target % 4 = 0) (h : mips.pc % 4 = 0) :
    (UpdatePC d val mips).pc % 4 = 0 := by
  have h4 : wrap32 (mips.pc + 4) % 4 = 0 := wrap32_mod_four _ (by omega)
  by_cases hj : d.op = 2 ∨ d.op = 3
  · rw [UpdatePC_jump d val mips hj]
    exact ht hj
  by_cases hb : d.op = 4
  · rw [UpdatePC_beq d val mips hb]
    split
    · apply wrap32_mod_four
      have := wrap32_mod_four (d.regs.i.addr_or_immed * 4) (by omega)
      omega
    · exact h4
  · rw [UpdatePC_sequential d val mips (fun e => hj (Or.inl e)) (fun e => hj (Or.inr e)) hb]
    exact h4

theorem RegWrite_pc (d : DecodedInstr) (val cr : Int) (mips : Computer) :
    (RegWrite d val cr mips).1.pc = mips.pc := by
  by_cases h0 : d.op = 0
  · rw [RegWrite_R d val cr mips h0]; rfl
  by_cases h3 : d.op = 3
  · rw [RegWrite_jal d val cr mips h3]; rfl
  by_cases h2 : d.op = 2
  · rw [RegWrite_j d val cr mips h2]
  · rw [RegWrite_I d val cr mips h0 h2 h3]; rfl

theorem cycleStages_pc (r : DecodedInstr) (val0 : Int) (s : SimState) :
    (cycleStages r val0 s).mips.pc = (UpdatePC r (Execute r s.mips val0) s.mips).pc := by
  unfold cycleStages
  exact RegWrite_pc _ _ _ _

/-- One cycle on any word that `Decode` accepts keeps the PC a multiple of 4. -/
theorem cycle_aligned (w : Nat) (g val0 : Int) (s t : SimState)
    (hc : cycle w g val0 s = some t) (h : s.mips.pc % 4 = 0) : t.mips.pc % 4 = 0 := by
  unfold cycle at hc
  obtain ⟨r, hD, ht⟩ := Option.map_eq_some'.mp hc
  have hr := Decode_eq_some w s.d r g hD
  rw [← ht, cycleStages_pc]
  apply UpdatePC_aligned _ _ _ _ h
  rw [hr]
  exact Decode_Op_target_aligned _ _ _

/-- Every state reached by iterations of the loop from an aligned PC has an aligned PC. -/
theorem iterations_aligned (inputs : List (Int × Int)) (s t : SimState)
    (hrun : Simulate.iterations inputs s = some t) (h : s.mips.pc % 4 = 0) :
    t.mips.pc % 4 = 0 := by
  induction inputs generalizing s with
  | nil =>
    rw [Simulate.iterations] at hrun
    rw [← Option.some.inj hrun]; exact h
  | cons p rest ih =>
    obtain ⟨g, v⟩ := p
    rw [Simulate.iterations] at hrun
    obtain ⟨u, hu, hrest⟩ := Option.bind_eq_some.mp hrun
    exact ih u hrest (cycle_aligned _ g v s u hu h)

/-! ## The claims -/

/-- C1: for every 32-bit word whose opcode (bits 31-26) is 0, the fields `rs`, `rt`, `rd`,
`shamt`, `funct` that the decoder extracts re-assemble, together with the opcode, to the original
word; this holds for the fields `Decode_Op` stores and so for every result of `Decode`. -/
theorem C1_rformat_fields_reassemble (w : Nat) (hw : w < 4294967296)
    (hop : extractBits w 26 6 = 0) (d : DecodedInstr) (g : Int) :
    reassembleR (Decode_Op (toInt32 w) d g).op (Decode_Op (toInt32 w) d g).regs.r.rs
        (Decode_Op (toInt32 w) d g).regs.r.rt (Decode_Op (toInt32 w) d g).regs.r.rd
        (Decode_Op (toInt32 w) d g).regs.r.shamt (Decode_Op (toInt32 w) d g).regs.r.funct
      = (w : Int)
    ∧ ∀ r, Decode w d g = some r →
        reassembleR r.op r.regs.r.rs r.regs.r.rt r.regs.r.rd r.regs.r.shamt r.regs.r.funct
          = (w : Int) := by
  refine ⟨reassembleR_Decode_Op w hw hop d g, fun r hr => ?_⟩
  rw [Decode_eq_some w d r g hr]
  exact reassembleR_Decode_Op w hw hop d g

/-- The round trip of C1 at the word `0x00221821` (`addu $3, $1, $2`). -/
theorem C1_rformat_fields_reassemble_witness :
    ((0x00221821 : Nat) < 4294967296 ∧ extractBits 0x00221821 26 6 = 0)
    ∧ (reassembleR (Decode_Op (toInt32 0x00221821) sampleInstr 0).op
          (Decode_Op (toInt32 0x00221821) sampleInstr 0).regs.r.rs
          (Decode_Op (toInt32 0x00221821) sampleInstr 0).regs.r.rt
          (Decode_Op (toInt32 0x00221821) sampleInstr 0).regs.r.rd
          (Decode_Op (toInt32 0x00221821) sampleInstr 0).regs.r.shamt
          (Decode_Op (toInt32 0x00221821) sampleInstr 0).regs.r.funct
        = ((0x00221821 : Nat) : Int)
      ∧ ∀ r, Decode 0x00221821 sampleInstr 0 = some r →
          reassembleR r.op r.regs.r.rs r.regs.r.rt r.regs.r.rd r.regs.r.shamt r.regs.r.funct
            = ((0x00221821 : Nat) : Int)) :=
  ⟨⟨by decide, by rfl⟩, C1_rformat_fields_reassemble 0x00221821 (by decide) (by rfl) sampleInstr 0⟩

/-- C2: for every 32-bit word, `Decode` returns an instruction (does not take the fatal exit)
exactly when the opcode is 0 and the function code is one of addu, subu, sll, srl, and, or, slt,
jr, or the opcode is one of addiu, andi, ori, beq, lui, bne, lw, sw, j, jal. -/
theorem C2_decode_succeeds_iff_legal (w : Nat) (hw : w < 4294967296) (d : DecodedInstr)
    (g : Int) :
    (Decode w d g).isSome = true ↔
      (extractBits w 26 6 = 0
        ∧ extractBits w 0 6 ∈ [0x21, 0x23, 0x00, 0x02, 0x24, 0x25, 0x2a, 0x08])
      ∨ extractBits w 26 6 ∈ [0x9, 0x8, 0xd, 0x4, 0xf, 0x5, 0x23, 0x2b, 0x2, 0x3] :=
  Decode_isSome_iff w hw d g

/-- The characterisation of C2 at the all-ones word `0xFFFFFFFF`. -/
theorem C2_decode_succeeds_iff_legal_witness :
    (0xFFFFFFFF : Nat) < 4294967296
    ∧ ((Decode 0xFFFFFFFF sampleInstr 0).isSome = true ↔
        (extractBits 0xFFFFFFFF 26 6 = 0
          ∧ extractBits 0xFFFFFFFF 0 6 ∈ [0x21, 0x23, 0x00, 0x02, 0x24, 0x25, 0x2a, 0x08])
        ∨ extractBits 0xFFFFFFFF 26 6 ∈ [0x9, 0x8, 0xd, 0x4, 0xf, 0x5, 0x23, 0x2b, 0x2, 0x3]) :=
  ⟨by decide, C2_decode_succeeds_iff_legal 0xFFFFFFFF (by decide) sampleInstr 0⟩

/-- C3 (the code departs from the claim): the word `0x24088000` is `addiu $8, $0, imm` with the
16-bit field `0x8000`, whose sign extension is `-32768`. `Decode` accepts the word, but the
immediate it stores is never below `-16`, whatever the stale array content `g` of `TwosComp`;
with `g = 0` it is exactly `-16`. -/
theorem C3_immediate_of_0x8000 (d : DecodedInstr) (g : Int) :
    ∃ r, Decode 0x24088000 d g = some r
      ∧ -16 ≤ r.regs.i.addr_or_immed
      ∧ (g = 0 → r.regs.i.addr_or_immed = -16)
      ∧ signExtend16 (extractBits 0x24088000 0 16) = -32768 := by
  have hw : (0x24088000 : Nat) < 4294967296 := by norm_num
  have hop : extractBits 0x24088000 26 6 = 9 := by rfl
  have h15 : extractBits 0x24088000 15 1 = 1 := by rfl
  have hv : toInt32 0x24088000 = 604536832 := by rfl
  have hi := Decode_Op_i _ hw d g (by rw [hop]; decide) (by rw [hop]; decide) (by rw [hop]; decide)
  simp only [h15, hv] at hi
  rw [if_pos (by decide)] at hi
  refine ⟨_, Decode_of_isSome _ d g ((Decode_isSome_iff _ hw d g).mpr ?_), ?_, ?_, by rfl⟩
  · rw [hop]; simp
  · rw [hv, hi]; exact (TwosComp_range _ _).1
  · intro hg; subst hg; rw [hv, hi]; decide

/-- C4: for every 32-bit word, each field computed by the accumulation loops equals the direct
mask/shift value `extractBits word low width`: the opcode (bits 31-26); `rs`, `rt`, `rd`, `shamt`,
`funct` of the R format; `rs`, `rt` of the I format and its immediate (bits 15-0) whenever bit 15
is clear; and the unshifted jump address (bits 25-0). -/
theorem C4_loops_equal_mask_shift (w : Nat) (hw : w < 4294967296) (d : DecodedInstr) (g : Int) :
    (Decode_Op (toInt32 w) d g).op = (extractBits w 26 6 : Int)
    ∧ (getRregisters d (toInt32 w)).regs.r =
        { rs := (extractBits w 21 5 : Int), rt := (extractBits w 16 5 : Int),
          rd := (extractBits w 11 5 : Int), shamt := (extractBits w 6 5 : Int),
          funct := (extractBits w 0 6 : Int) }
    ∧ (getIregisters d (toInt32 w) g).regs.i.rs = (extractBits w 21 5 : Int)
    ∧ (getIregisters d (toInt32 w) g).regs.i.rt = (extractBits w 16 5 : Int)
    ∧ (extractBits w 15 1 = 0 →
        (getIregisters d (toInt32 w) g).regs.i.addr_or_immed = (extractBits w 0 16 : Int))
    ∧ getJregisters.address (toInt32 w) = (extractBits w 0 26 : Int) := by
  have hi := getIregisters_i w hw d g
  refine ⟨Decode_Op_op w hw d g, getRregisters_r w hw d, ?_, ?_, ?_, loop26 w hw⟩
  · rw [hi]
  · rw [hi]
  · intro h15
    rw [hi, h15]
    simp

/-- The field equalities of C4 at the word `0x21491234`, whose bit 15 is clear. -/
theorem C4_loops_equal_mask_shift_witness :
    (0x21491234 : Nat) < 4294967296
    ∧ ((Decode_Op (toInt32 0x21491234) sampleInstr 0).op = (extractBits 0x21491234 26 6 : Int)
      ∧ (getRregisters sampleInstr (toInt32 0x21491234)).regs.r =
          { rs := (extractBits 0x21491234 21 5 : Int), rt := (extractBits 0x21491234 16 5 : Int),
            rd := (extractBits 0x21491234 11 5 : Int),
            shamt := (extractBits 0x21491234 6 5 : Int),
            funct := (extractBits 0x21491234 0 6 : Int) }
      ∧ (getIregisters sampleInstr (toInt32 0x21491234) 0).regs.i.rs
          = (extractBits 0x21491234 21 5 : Int)
      ∧ (getIregisters sampleInstr (toInt32 0x21491234) 0).regs.i.rt
          = (extractBits 0x21491234 16 5 : Int)
      ∧ (extractBits 0x21491234 15 1 = 0 →
          (getIregisters sampleInstr (toInt32 0x21491234) 0).regs.i.addr_or_immed
            = (extractBits 0x21491234 0 16 : Int))
      ∧ getJregisters.address (toInt32 0x21491234) = (extractBits 0x21491234 0 26 : Int)) :=
  ⟨by decide, C4_loops_equal_mask_shift 0x21491234 (by decide) sampleInstr 0⟩

/-- C5: for every word with opcode `j` (0x2), every current PC and register file, `Decode`
succeeds and after `Execute` and `UpdatePC` the PC is the 26-bit field (bits 25-0) shifted left
by 2; it is still that at the end of the cycle. -/
theorem C5_j_sets_pc_to_target (w : Nat) (hw : w < 4294967296) (hop : extractBits w 26 6 = 2)
    (s : SimState) (g val0 : Int) :
    (∃ r, Decode w s.d g = some r
      ∧ (UpdatePC r (Execute r s.mips val0) s.mips).pc = ((extractBits w 0 26 <<< 2 : Nat) : Int))
    ∧ ∃ t, cycle w g val0 s = some t
      ∧ t.mips.pc = ((extractBits w 0 26 <<< 2 : Nat) : Int) := by
  have hD := Decode_jump w hw s.d g (Or.inl hop)
  have ho : (Decode_Op (toInt32 w) s.d g).op = 2 := Decode_Op_op_eq w hw s.d g 2 hop
  have ht := Decode_Op_j w hw s.d g (Or.inl hop)
  generalize Decode_Op (toInt32 w) s.d g = r at hD ho ht
  have hpc : ∀ val, (UpdatePC r val s.mips).pc = ((extractBits w 0 26 <<< 2 : Nat) : Int) :=
    fun val => by rw [UpdatePC_jump _ _ _ (Or.inl ho), ht]
  refine ⟨⟨r, hD, hpc _⟩, cycleStages r val0 s, cycle_of_Decode w s g val0 r hD, ?_⟩
  rw [cycleStages_j s val0 r ho]
  exact hpc val0

/-- The jump of C5 at the word `0x08100400`: a `j` to `0x00401000`. -/
theorem C5_j_sets_pc_to_target_witness :
    ((0x08100400 : Nat) < 4294967296 ∧ extractBits 0x08100400 26 6 = 2)
    ∧ ((extractBits 0x08100400 0 26 <<< 2 : Nat) : Int) = 0x00401000
    ∧ ((∃ r, Decode 0x08100400 sampleState.d 0 = some r
        ∧ (UpdatePC r (Execute r sampleState.mips 7) sampleState.mips).pc
          = ((extractBits 0x08100400 0 26 <<< 2 : Nat) : Int))
      ∧ ∃ t, cycle 0x08100400 0 7 sampleState = some t
        ∧ t.mips.pc = ((extractBits 0x08100400 0 26 <<< 2 : Nat) : Int)) :=
  ⟨⟨by decide, by rfl⟩, by rfl,
    C5_j_sets_pc_to_target 0x08100400 (by decide) (by rfl) sampleState 0 7⟩

/-- C6: for every word with opcode `jal` (0x3), every current PC and register file, one full
cycle (`Decode`, `Execute`, `UpdatePC`, `RegWrite`) leaves register 31 equal to the PC before the
cycle plus 4 (in 32-bit `int` arithmetic; exactly `pc + 4` when that does not overflow), sets
the PC to the jump target (bits 25-0 shifted left by 2) and reports register 31 as changed. -/
theorem C6_jal_links_and_jumps (w : Nat) (hw : w < 4294967296) (hop : extractBits w 26 6 = 3)
    (s : SimState) (g val0 : Int) :
    ∃ t, cycle w g val0 s = some t
      ∧ t.mips.registers 31 = wrap32 (s.mips.pc + 4)
      ∧ (-2147483648 ≤ s.mips.pc → s.mips.pc + 4 < 2147483648 →
          t.mips.registers 31 = s.mips.pc + 4)
      ∧ t.mips.pc = ((extractBits w 0 26 <<< 2 : Nat) : Int)
      ∧ t.changedReg = 31 := by
  have hD := Decode_jump w hw s.d g (Or.inr hop)
  have ho : (Decode_Op (toInt32 w) s.d g).op = 3 := Decode_Op_op_eq w hw s.d g 3 hop
  have ht := Decode_Op_j w hw s.d g (Or.inr hop)
  generalize Decode_Op (toInt32 w) s.d g = r at hD ho ht
  refine ⟨cycleStages r val0 s, cycle_of_Decode w s g val0 r hD, ?_⟩
  rw [cycleStages_jal s val0 r ho]
  dsimp only
  refine ⟨setReg_same _ _ _, ?_, ?_, rfl⟩
  · intro h1 h2
    rw [setReg_same, wrap32_of_range _ (by omega) (by omega)]
  · rw [setReg_pc, UpdatePC_jump _ _ _ (Or.inr ho), ht]


/-- The call of C6 at the word `0x0C100400` from PC `0x00400000`: the link value is `0x00400004`. -/
theorem C6_jal_links_and_jumps_witness :
    ((0x0C100400 : Nat) < 4294967296 ∧ extractBits 0x0C100400 26 6 = 3)
    ∧ wrap32 (sampleState.mips.pc + 4) = 0x00400004
    ∧ ∃ t, cycle 0x0C100400 0 7 sampleState = some t
      ∧ t.mips.registers 31 = wrap32 (sampleState.mips.pc + 4)
      ∧ (-2147483648 ≤ sampleState.mips.pc → sampleState.mips.pc + 4 < 2147483648 →
          t.mips.registers 31 = sampleState.mips.pc + 4)
      ∧ t.mips.pc = ((extractBits 0x0C100400 0 26 <<< 2 : Nat) : Int)
      ∧ t.changedReg = 31 :=
  ⟨⟨by decide, by rfl⟩, by decide,
    C6_jal_links_and_jumps 0x0C100400 (by decide) (by rfl) sampleState 0 7⟩

/-- C7 (the code departs from the claim): the word `0x00221821` is `addu $3, $1, $2`. With
registers 1 and 2 holding 5 and 3 the claim gives `8`; `Execute` compares the opcode, not the
function code, with `addu`, so only the `sll` branch fires (`sll` is `0x00`, the R-format
opcode) and the result is `registers[rt] << registers[shamt]`, here `3 << registers[0] = 3`. -/
theorem C7_addu_executes_as_register_shift (d : DecodedInstr) (g val0 : Int) :
    ∃ r, Decode 0x00221821 d g = some r
      ∧ r.op = 0 ∧ r.regs.r.funct = addu ∧ r.regs.r.rs = 1 ∧ r.regs.r.rt = 2
      ∧ sampleComputer.registers 1 = 5 ∧ sampleComputer.registers 2 = 3
      ∧ Execute r sampleComputer val0 = 3 := by
  have hw : (0x00221821 : Nat) < 4294967296 := by norm_num
  have hop : extractBits 0x00221821 26 6 = 0 := by rfl
  have hD := Decode_of_isSome _ d g ((Decode_isSome_iff _ hw d g).mpr
    (Or.inl ⟨hop, by rw [show extractBits 0x00221821 0 6 = 0x21 from rfl]; simp⟩))
  have ho := Decode_Op_op_eq _ hw d g 0 hop
  have hr := Decode_Op_r _ hw d g hop
  rw [show extractBits 0x00221821 21 5 = 1 from rfl, show extractBits 0x00221821 16 5 = 2 from rfl,
    show extractBits 0x00221821 11 5 = 3 from rfl, show extractBits 0x00221821 6 5 = 0 from rfl,
    show extractBits 0x00221821 0 6 = 0x21 from rfl] at hr
  generalize Decode_Op (toInt32 0x00221821) d g = r at hD ho hr
  refine ⟨r, hD, ho, ?_, ?_, ?_, rfl, rfl, ?_⟩
  · rw [hr]; rfl
  · rw [hr]; rfl
  · rw [hr]; rfl
  · rw [Execute_R r _ _ ho, hr]; rfl

/-- C8 (the code departs from the claim): the word `0x00021900` is `sll $3, $2, 4`. With
register 2 holding 3 the claim gives `3 << 4 = 48`; `Execute` shifts by `registers[shamt]`,
the content of register 4 (here 3), and returns `3 << 3 = 24`. -/
theorem C8_sll_shifts_by_register_content (d : DecodedInstr) (g val0 : Int) :
    ∃ r, Decode 0x00021900 d g = some r
      ∧ r.op = 0 ∧ r.regs.r.funct = sll ∧ r.regs.r.rt = 2 ∧ r.regs.r.shamt = 4
      ∧ sampleComputer.registers 2 = 3 ∧ sampleComputer.registers 4 = 3
      ∧ Execute r sampleComputer val0 = 24
      ∧ shl32 (sampleComputer.registers 2) 4 = 48 := by
  have hw : (0x00021900 : Nat) < 4294967296 := by norm_num
  have hop : extractBits 0x00021900 26 6 = 0 := by rfl
  have hD := Decode_of_isSome _ d g ((Decode_isSome_iff _ hw d g).mpr
    (Or.inl ⟨hop, by rw [show extractBits 0x00021900 0 6 = 0 from rfl]; simp⟩))
  have ho := Decode_Op_op_eq _ hw d g 0 hop
  have hr := Decode_Op_r _ hw d g hop
  rw [show extractBits 0x00021900 21 5 = 0 from rfl, show extractBits 0x00021900 16 5 = 2 from rfl,
    show extractBits 0x00021900 11 5 = 3 from rfl, show extractBits 0x00021900 6 5 = 4 from rfl,
    show extractBits 0x00021900 0 6 = 0 from rfl] at hr
  generalize Decode_Op (toInt32 0x00021900) d g = r at hD ho hr
  refine ⟨r, hD, ho, ?_, ?_, ?_, rfl, rfl, ?_, by rfl⟩
  · rw [hr]; rfl
  · rw [hr]; rfl
  · rw [hr]; rfl
  · rw [Execute_R r _ _ ho, hr]; rfl

/-- C9: for every decoded instruction with opcode `addiu`, every immediate and every register
file, `Execute` returns `registers[rs] + imm` reduced modulo `2^32` to the signed 32-bit
range. -/
theorem C9_addiu_adds_immediate (d : DecodedInstr) (mips : Computer) (val0 : Int)
    (h : d.op = addiu) :
    Execute d mips val0 = wrap32 (mips.registers d.regs.i.rs + d.regs.i.addr_or_immed)
    ∧ -2147483648 ≤ Execute d mips val0 ∧ Execute d mips val0 < 2147483648
    ∧ (Execute d mips val0 - (mips.registers d.regs.i.rs + d.regs.i.addr_or_immed))
        % 4294967296 = 0 := by
  rw [Execute_addiu d mips val0 h]
  unfold wrap32
  refine ⟨rfl, ?_, ?_, ?_⟩ <;> omega

/-- The sum of C9 at `addiu $7, $9, 8` with register 9 holding 100: the result is 108. -/
theorem C9_addiu_adds_immediate_witness :
    sampleInstr.op = addiu
    ∧ Execute sampleInstr sampleComputer 7 = 108
    ∧ (Execute sampleInstr sampleComputer 7
        = wrap32 (sampleComputer.registers sampleInstr.regs.i.rs
            + sampleInstr.regs.i.addr_or_immed)
      ∧ -2147483648 ≤ Execute sampleInstr sampleComputer 7
      ∧ Execute sampleInstr sampleComputer 7 < 2147483648
      ∧ (Execute sampleInstr sampleComputer 7
          - (sampleComputer.registers sampleInstr.regs.i.rs
            + sampleInstr.regs.i.addr_or_immed)) % 4294967296 = 0) :=
  ⟨rfl, by decide, C9_addiu_adds_immediate sampleInstr sampleComputer 7 rfl⟩

/-- C10 (the code departs from the claim for `sw`): the words `0xAD280004` and `0x8D280004` are
`sw $8, 4($9)` and `lw $8, 4($9)`. With register 9 holding 100 the effective address is `104`.
`Execute` returns `104` for the `lw` but `116` for the `sw`, whose immediate it multiplies by 4. -/
theorem C10_sw_scales_the_immediate (d : DecodedInstr) (g val0 : Int) :
    (∃ r, Decode 0xAD280004 d g = some r
      ∧ r.op = sw ∧ r.regs.i.rs = 9 ∧ r.regs.i.addr_or_immed = 4
      ∧ sampleComputer.registers 9 = 100
      ∧ Execute r sampleComputer val0 = 116)
    ∧ (∃ r, Decode 0x8D280004 d g = some r
      ∧ r.op = lw ∧ r.regs.i.rs = 9 ∧ r.regs.i.addr_or_immed = 4
      ∧ Execute r sampleComputer val0 = 104) := by
  constructor
  · have hw : (0xAD280004 : Nat) < 4294967296 := by norm_num
    have hop : extractBits 0xAD280004 26 6 = 0x2b := by rfl
    have hD := Decode_of_isSome _ d g ((Decode_isSome_iff _ hw d g).mpr
      (Or.inr (by rw [hop]; simp)))
    have ho := Decode_Op_op_eq _ hw d g 0x2b hop
    have hi := Decode_Op_i _ hw d g (by rw [hop]; decide) (by rw [hop]; decide)
      (by rw [hop]; decide)
    rw [show extractBits 0xAD280004 21 5 = 9 from rfl, show extractBits 0xAD280004 16 5 = 8 from rfl,
      show extractBits 0xAD280004 15 1 = 0 from rfl,
      show extractBits 0xAD280004 0 16 = 4 from rfl] at hi
    generalize Decode_Op (toInt32 0xAD280004) d g = r at hD ho hi
    refine ⟨r, hD, ho, ?_, ?_, rfl, ?_⟩
    · rw [hi]; rfl
    · rw [hi]; rfl
    · rw [Execute_sw r _ _ ho, hi]; rfl
  · have hw : (0x8D280004 : Nat) < 4294967296 := by norm_num
    have hop : extractBits 0x8D280004 26 6 = 0x23 := by rfl
    have hD := Decode_of_isSome _ d g ((Decode_isSome_iff _ hw d g).mpr
      (Or.inr (by rw [hop]; simp)))
    have ho := Decode_Op_op_eq _ hw d g 0x23 hop
    have hi := Decode_Op_i _ hw d g (by rw [hop]; decide) (by rw [hop]; decide)
      (by rw [hop]; decide)
    rw [show extractBits 0x8D280004 21 5 = 9 from rfl, show extractBits 0x8D280004 16 5 = 8 from rfl,
      show extractBits 0x8D280004 15 1 = 0 from rfl,
      show extractBits 0x8D280004 0 16 = 4 from rfl] at hi
    generalize Decode_Op (toInt32 0x8D280004) d g = r at hD ho hi
    refine ⟨r, hD, ho, ?_, ?_, ?_⟩
    · rw [hi]; rfl
    · rw [hi]; rfl
    · rw [Execute_lw r _ _ ho, hi]; rfl

/-- C11 (the code departs from the claim): the word `0x3C080001` is `lui $8, 1`, for which the
claim gives `1 << 16 = 65536`. `Execute` has no assignment for the opcode `lui`: for every
register file it returns the indeterminate initial content `val0` of its local `val`. -/
theorem C11_lui_returns_uninitialised_val (d : DecodedInstr) (g val0 : Int) (mips : Computer) :
    ∃ r, Decode 0x3C080001 d g = some r
      ∧ r.op = lui ∧ r.regs.i.rt = 8 ∧ r.regs.i.addr_or_immed = 1
      ∧ Execute r mips val0 = val0
      ∧ shl32 r.regs.i.addr_or_immed 16 = 65536 := by
  obtain ⟨r, hD, ho, hi⟩ := Decode_I_word 0x3C080001 (by norm_num) d g 0xf 0 8 1 rfl (by simp)
    rfl rfl rfl rfl
  refine ⟨r, hD, ho, ?_, ?_, Execute_lui r mips val0 ho, ?_⟩
  · rw [hi]; rfl
  · rw [hi]; rfl
  · rw [hi]; rfl

/-- C12 (the code departs from the claim): `Execute` computes `registers[rs] - rt` for `beq`,
subtracting the register index `rt` and not the content of that register. The word
`0x10440002` is `beq $2, $4, 2` with registers 2 and 4 both holding 3: the claim gives the next
PC `0x0040000C`, the code computes `3 - 4 = -1` and falls through to `0x00400004`. The word
`0x10250002` is `beq $1, $5, 2` with registers 1 and 5 holding 5 and 0: the claim gives
`0x00400004`, the code computes `5 - 5 = 0` and branches to `0x0040000C`. -/
theorem C12_beq_compares_with_register_index (d : DecodedInstr) (g val0 : Int) :
    (∃ r, Decode 0x10440002 d g = some r
      ∧ r.op = beq ∧ r.regs.i.rs = 2 ∧ r.regs.i.rt = 4 ∧ r.regs.i.addr_or_immed = 2
      ∧ sampleComputer.registers 2 = sampleComputer.registers 4
      ∧ sampleComputer.pc = 0x00400000
      ∧ Execute r sampleComputer val0 = -1
      ∧ (UpdatePC r (Execute r sampleComputer val0) sampleComputer).pc = 0x00400004)
    ∧ (∃ r, Decode 0x10250002 d g = some r
      ∧ r.op = beq ∧ r.regs.i.rs = 1 ∧ r.regs.i.rt = 5 ∧ r.regs.i.addr_or_immed = 2
      ∧ sampleComputer.registers 1 ≠ sampleComputer.registers 5
      ∧ Execute r sampleComputer val0 = 0
      ∧ (UpdatePC r (Execute r sampleComputer val0) sampleComputer).pc = 0x0040000C) := by
  constructor
  · obtain ⟨r, hD, ho, hi⟩ := Decode_I_word 0x10440002 (by norm_num) d g 4 2 4 2 rfl (by simp)
      rfl rfl rfl rfl
    have hE : Execute r sampleComputer val0 = -1 := by
      rw [Execute_beq r _ _ ho, hi]; rfl
    refine ⟨r, hD, ho, ?_, ?_, ?_, rfl, rfl, hE, ?_⟩
    · rw [hi]; rfl
    · rw [hi]; rfl
    · rw [hi]; rfl
    · rw [UpdatePC_beq r _ _ ho, hE, hi]; rfl
  · obtain ⟨r, hD, ho, hi⟩ := Decode_I_word 0x10250002 (by norm_num) d g 4 1 5 2 rfl (by simp)
      rfl rfl rfl rfl
    have hE : Execute r sampleComputer val0 = 0 := by
      rw [Execute_beq r _ _ ho, hi]; rfl
    refine ⟨r, hD, ho, ?_, ?_, ?_, by decide, hE, ?_⟩
    · rw [hi]; rfl
    · rw [hi]; rfl
    · rw [hi]; rfl
    · rw [UpdatePC_beq r _ _ ho, hE, hi]; rfl

/-- C13 (the code departs from the claim): the word `0x14220002` is `bne $1, $2, 2` with
registers 1 and 2 holding 5 and 3, so the claim gives the next PC `0x0040000C`. `UpdatePC` has
no update for `bne` (it is commented out in the source): the PC becomes `0x00400004`. -/
theorem C13_bne_never_branches (d : DecodedInstr) (g val0 : Int) :
    ∃ r, Decode 0x14220002 d g = some r
      ∧ r.op = bne ∧ r.regs.i.rs = 1 ∧ r.regs.i.rt = 2 ∧ r.regs.i.addr_or_immed = 2
      ∧ sampleComputer.registers 1 ≠ sampleComputer.registers 2
      ∧ sampleComputer.pc = 0x00400000
      ∧ (UpdatePC r (Execute r sampleComputer val0) sampleComputer).pc = 0x00400004 := by
  obtain ⟨r, hD, ho, hi⟩ := Decode_I_word 0x14220002 (by norm_num) d g 5 1 2 2 rfl (by simp)
    rfl rfl rfl rfl
  refine ⟨r, hD, ho, ?_, ?_, ?_, by decide, rfl, ?_⟩
  · rw [hi]; rfl
  · rw [hi]; rfl
  · rw [hi]; rfl
  · rw [UpdatePC_sequential r _ _ (by rw [ho]; decide) (by rw [ho]; decide) (by rw [ho]; decide)]
    rfl

/-- C14 (the code departs from the claim): the word `0x01200008` is `jr $9` with register 9
holding 100, so the claim gives the next PC `100`. `UpdatePC` has no update for `jr` (it is
commented out in the source): the PC becomes `0x00400004`. -/
theorem C14_jr_falls_through (d : DecodedInstr) (g val0 : Int) :
    ∃ r, Decode 0x01200008 d g = some r
      ∧ r.op = 0 ∧ r.regs.r.funct = jr ∧ r.regs.r.rs = 9
      ∧ sampleComputer.registers 9 = 100
      ∧ sampleComputer.pc = 0x00400000
      ∧ (UpdatePC r (Execute r sampleComputer val0) sampleComputer).pc = 0x00400004 := by
  obtain ⟨r, hD, ho, hr⟩ := Decode_R_word 0x01200008 (by norm_num) d g 9 0 0 0 8 rfl rfl rfl rfl
    rfl rfl (by simp)
  refine ⟨r, hD, ho, ?_, ?_, rfl, rfl, ?_⟩
  · rw [hr]; rfl
  · rw [hr]; rfl
  · rw [UpdatePC_sequential r _ _ (by rw [ho]; decide) (by rw [ho]; decide) (by rw [ho]; decide)]
    rfl

/-- C15: for every legal decoded instruction that is none of `j`, `jal`, `jr`, `beq`, `bne`
(an R-format instruction with function code addu, subu, sll, srl, and, or or slt, or one of
addiu, andi, ori, lui, lw, sw), every current PC, executed value and register file, `UpdatePC`
sets the PC to the current PC plus 4 in 32-bit arithmetic: the new PC is `wrap32 (pc + 4)`,
which is congruent to `pc + 4` modulo `2^32`. -/
theorem C15_sequential_instructions_advance_pc_by_four (d : DecodedInstr) (val : Int)
    (mips : Computer)
    (h : (d.op = 0 ∧ (d.regs.r.funct = addu ∨ d.regs.r.funct = subu ∨ d.regs.r.funct = sll
            ∨ d.regs.r.funct = srl ∨ d.regs.r.funct = and ∨ d.regs.r.funct = or
            ∨ d.regs.r.funct = slt))
        ∨ d.op = addiu ∨ d.op = andi ∨ d.op = ori ∨ d.op = lui ∨ d.op = lw ∨ d.op = sw) :
    (UpdatePC d val mips).pc = wrap32 (mips.pc + 4)
    ∧ ((UpdatePC d val mips).pc - (mips.pc + 4)) % 4294967296 = 0 := by
  have hop : d.op ≠ 2 ∧ d.op ≠ 3 ∧ d.op ≠ 4 := by
    simp only [addiu, andi, ori, lui, lw, sw] at h
    rcases h with ⟨h, _⟩ | h | h | h | h | h | h <;> rw [h] <;> decide
  rw [UpdatePC_sequential d val mips hop.1 hop.2.1 hop.2.2]
  refine ⟨rfl, ?_⟩
  unfold wrap32
  omega

/-- The sequential step of C15 at `addiu $7, $9, 8` from PC `0x00400000`: the new PC is
`0x00400004`. -/
theorem C15_sequential_instructions_advance_pc_by_four_witness :
    ((sampleInstr.op = 0 ∧ (sampleInstr.regs.r.funct = addu ∨ sampleInstr.regs.r.funct = subu
            ∨ sampleInstr.regs.r.funct = sll ∨ sampleInstr.regs.r.funct = srl
            ∨ sampleInstr.regs.r.funct = and ∨ sampleInstr.regs.r.funct = or
            ∨ sampleInstr.regs.r.funct = slt))
        ∨ sampleInstr.op = addiu ∨ sampleInstr.op = andi ∨ sampleInstr.op = ori
        ∨ sampleInstr.op = lui ∨ sampleInstr.op = lw ∨ sampleInstr.op = sw)
    ∧ wrap32 (sampleComputer.pc + 4) = 0x00400004
    ∧ ((UpdatePC sampleInstr 108 sampleComputer).pc = wrap32 (sampleComputer.pc + 4)
      ∧ ((UpdatePC sampleInstr 108 sampleComputer).pc - (sampleComputer.pc + 4))
          % 4294967296 = 0) :=
  ⟨Or.inr (Or.inl rfl), by decide,
    C15_sequential_instructions_advance_pc_by_four sampleInstr 108 sampleComputer
      (Or.inr (Or.inl rfl))⟩

/-- C16 (the code departs from the claim): `RegWrite` adds the value to the destination register
(`+=`) for the R and I formats; only `jal` overwrites. The word `0x25210008` is
`addiu $1, $9, 8` with registers 9 and 1 holding 100 and 5: the executed value is 108, after
`RegWrite` register 1 holds `113`, and after a second identical writeback `221`. The word
`0x00221821` is `addu $3, $1, $2` with register 3 holding 0: writing back the value 7 once
leaves 7, twice leaves 14. -/
theorem C16_regwrite_accumulates (d : DecodedInstr) (g val0 cr : Int) :
    (∃ r, Decode 0x25210008 d g = some r
      ∧ r.op = addiu ∧ r.regs.i.rt = 1
      ∧ Execute r sampleComputer val0 = 108
      ∧ sampleComputer.registers 1 = 5
      ∧ (RegWrite r 108 cr sampleComputer).1.registers 1 = 113
      ∧ (RegWrite r 108 cr (RegWrite r 108 cr sampleComputer).1).1.registers 1 = 221)
    ∧ (∃ r, Decode 0x00221821 d g = some r
      ∧ r.op = 0 ∧ r.regs.r.funct = addu ∧ r.regs.r.rd = 3
      ∧ sampleComputer.registers 3 = 0
      ∧ (RegWrite r 7 cr sampleComputer).1.registers 3 = 7
      ∧ (RegWrite r 7 cr (RegWrite r 7 cr sampleComputer).1).1.registers 3 = 14) := by
  constructor
  · obtain ⟨r, hD, ho, hi⟩ := Decode_I_word 0x25210008 (by norm_num) d g 9 9 1 8 rfl (by simp)
      rfl rfl rfl rfl
    have hW : ∀ m : Computer, RegWrite r 108 cr m
        = (setReg m 1 (wrap32 (m.registers 1 + 108)), 1) := fun m => by
      rw [RegWrite_I r _ _ _ (by rw [ho]; decide) (by rw [ho]; decide) (by rw [ho]; decide),
        hi, ho]
      rfl
    refine ⟨r, hD, ho, ?_, ?_, rfl, ?_, ?_⟩
    · rw [hi]; rfl
    · rw [Execute_addiu r _ _ ho, hi]; rfl
    · rw [hW]; rfl
    · rw [hW, hW]; rfl
  · obtain ⟨r, hD, ho, hr⟩ := Decode_R_word 0x00221821 (by norm_num) d g 1 2 3 0 0x21 rfl rfl rfl
      rfl rfl rfl (by simp)
    have hW : ∀ m : Computer, RegWrite r 7 cr m
        = (setReg m 3 (wrap32 (m.registers 3 + 7)), 3) := fun m => by
      rw [RegWrite_R r _ _ _ ho, hr]
      rfl
    refine ⟨r, hD, ho, ?_, ?_, rfl, ?_, ?_⟩
    · rw [hr]; rfl
    · rw [hr]; rfl
    · rw [hW]; rfl
    · rw [hW, hW]; rfl

/-- C17 (the code departs from the claim): the last test of `RegWrite` reports "no register" for
the opcodes `beq`, `j` and `jr`, where `jr` (0x08) is a function code that, read as an opcode,
is `andi`. For every executed value: `andi $8, $9, 255` (`0x212800FF`) reports `-1`, the claim
`8`; `jr $9` (`0x01200008`) reports its `rd` field `0`, the claim `-1`; `bne $1, $2, 2`
(`0x14220002`) reports `2`, the claim `-1`; `sw $8, 4($9)` (`0xAD280004`) reports `8`, the
claim `-1`. -/
theorem C17_changed_register_reports (d : DecodedInstr) (g val cr : Int) (mips : Computer) :
    (∃ r, Decode 0x212800FF d g = some r ∧ r.op = andi ∧ r.regs.i.rt = 8
      ∧ (RegWrite r val cr mips).2 = -1)
    ∧ (∃ r, Decode 0x01200008 d g = some r ∧ r.op = 0 ∧ r.regs.r.funct = jr ∧ r.regs.r.rd = 0
      ∧ (RegWrite r val cr mips).2 = 0)
    ∧ (∃ r, Decode 0x14220002 d g = some r ∧ r.op = bne ∧ r.regs.i.rt = 2
      ∧ (RegWrite r val cr mips).2 = 2)
    ∧ (∃ r, Decode 0xAD280004 d g = some r ∧ r.op = sw ∧ r.regs.i.rt = 8
      ∧ (RegWrite r val cr mips).2 = 8) := by
  refine ⟨?_, ?_, ?_, ?_⟩
  · obtain ⟨r, hD, ho, hi⟩ := Decode_I_word 0x212800FF (by norm_num) d g 8 9 8 255 rfl (by simp)
      rfl rfl rfl rfl
    refine ⟨r, hD, ho, by rw [hi]; rfl, ?_⟩
    rw [RegWrite_I r _ _ _ (by rw [ho]; decide) (by rw [ho]; decide) (by rw [ho]; decide), ho]
    rfl
  · obtain ⟨r, hD, ho, hr⟩ := Decode_R_word 0x01200008 (by norm_num) d g 9 0 0 0 8 rfl rfl rfl rfl
      rfl rfl (by simp)
    refine ⟨r, hD, ho, by rw [hr]; rfl, by rw [hr]; rfl, ?_⟩
    rw [RegWrite_R r _ _ _ ho, hr]
    rfl
  · obtain ⟨r, hD, ho, hi⟩ := Decode_I_word 0x14220002 (by norm_num) d g 5 1 2 2 rfl (by simp)
      rfl rfl rfl rfl
    refine ⟨r, hD, ho, by rw [hi]; rfl, ?_⟩
    rw [RegWrite_I r _ _ _ (by rw [ho]; decide) (by rw [ho]; decide) (by rw [ho]; decide), ho, hi]
    rfl
  · obtain ⟨r, hD, ho, hi⟩ := Decode_I_word 0xAD280004 (by norm_num) d g 0x2b 9 8 4 rfl (by simp)
      rfl rfl rfl rfl
    refine ⟨r, hD, ho, by rw [hi]; rfl, ?_⟩
    rw [RegWrite_I r _ _ _ (by rw [ho]; decide) (by rw [ho]; decide) (by rw [ho]; decide), ho, hi]
    rfl

/-- C18 (the code departs from the claim): `RegWrite` runs its I-format write
`registers[rt] += val` for `beq`, `bne` and `sw` as well, and its R-format write for `jr`.
The word `0xAD280004` is `sw $8, 4($9)` with registers 9 and 8 holding 100 and 0: the executed
value is 116 and `RegWrite` leaves 116 in register 8. The word `0x10440002` is `beq $2, $4, 2`
with registers 2 and 4 holding 3: the executed value is -1 and `RegWrite` leaves 2 in
register 4 while reporting that no register changed. -/
theorem C18_regwrite_modifies_registers_of_sw_and_beq (d : DecodedInstr) (g val0 cr : Int) :
    (∃ r, Decode 0xAD280004 d g = some r ∧ r.op = sw
      ∧ Execute r sampleComputer val0 = 116
      ∧ sampleComputer.registers 8 = 0
      ∧ (RegWrite r (Execute r sampleComputer val0) cr sampleComputer).1.registers 8 = 116)
    ∧ (∃ r, Decode 0x10440002 d g = some r ∧ r.op = beq
      ∧ Execute r sampleComputer val0 = -1
      ∧ sampleComputer.registers 4 = 3
      ∧ (RegWrite r (Execute r sampleComputer val0) cr sampleComputer).1.registers 4 = 2
      ∧ (RegWrite r (Execute r sampleComputer val0) cr sampleComputer).2 = -1) := by
  constructor
  · obtain ⟨r, hD, ho, hi⟩ := Decode_I_word 0xAD280004 (by norm_num) d g 0x2b 9 8 4 rfl (by simp)
      rfl rfl rfl rfl
    have hE : Execute r sampleComputer val0 = 116 := by
      rw [Execute_sw r _ _ ho, hi]; rfl
    refine ⟨r, hD, ho, hE, rfl, ?_⟩
    rw [RegWrite_I r _ _ _ (by rw [ho]; decide) (by rw [ho]; decide) (by rw [ho]; decide), hE, hi]
    rfl
  · obtain ⟨r, hD, ho, hi⟩ := Decode_I_word 0x10440002 (by norm_num) d g 4 2 4 2 rfl (by simp)
      rfl rfl rfl rfl
    have hE : Execute r sampleComputer val0 = -1 := by
      rw [Execute_beq r _ _ ho, hi]; rfl
    have hW := RegWrite_I r (-1) cr sampleComputer (by rw [ho]; decide) (by rw [ho]; decide)
      (by rw [ho]; decide)
    rw [hi, ho] at hW
    refine ⟨r, hD, ho, hE, rfl, ?_, ?_⟩
    · rw [hE, hW]; rfl
    · rw [hE, hW]; rfl

/-- C19: for every word that `Decode` rejects, the cycle stops at `Decode`: no next state is
produced, and the state in which the process exits has the register file, the memory, the PC and
`changedReg` of the state before the cycle (`UpdatePC` and `RegWrite` have not run). -/
theorem C19_rejected_word_halts_without_mutation (w : Nat) (s : SimState) (g val0 : Int)
    (h : Decode w s.d g = none) :
    cycle w g val0 s = none
    ∧ ∃ e, cycleOrExit w g val0 s = Except.error e
      ∧ e.mips.registers = s.mips.registers ∧ e.mips.pc = s.mips.pc
      ∧ e.mips.memory = s.mips.memory ∧ e.changedReg = s.changedReg :=
  ⟨cycle_none_of_Decode w s g val0 h,
    _, cycleOrExit_of_Decode_none w s g val0 h, rfl, rfl, rfl, rfl⟩

/-- The halt of C19 at the all-ones word `0xFFFFFFFF`, which `Decode` rejects; the opcode-0 word
`0x0000003F`, whose function code is undefined, is rejected as well. -/
theorem C19_rejected_word_halts_without_mutation_witness :
    Decode 0xFFFFFFFF sampleState.d 0 = none
    ∧ Decode 0x0000003F sampleState.d 0 = none
    ∧ (cycle 0xFFFFFFFF 0 7 sampleState = none
      ∧ ∃ e, cycleOrExit 0xFFFFFFFF 0 7 sampleState = Except.error e
        ∧ e.mips.registers = sampleState.mips.registers ∧ e.mips.pc = sampleState.mips.pc
        ∧ e.mips.memory = sampleState.mips.memory ∧ e.changedReg = sampleState.changedReg) :=
  ⟨Decode_allOnes _ _, Decode_undefined_funct _ _,
    C19_rejected_word_halts_without_mutation 0xFFFFFFFF sampleState 0 7 (Decode_allOnes _ _)⟩

/-- C20: for every decoded instruction, executed value and register file, `RegWrite` changes at
most one register: every register whose index differs from the written index (`rd` for the
R format, `rt` for the I format, 31 for `jal`; none for `j`) keeps its value; the PC and the
memory are untouched. -/
theorem C20_regwrite_changes_at_most_one_register (d : DecodedInstr) (val cr : Int)
    (mips : Computer) (n : Int)
    (hR : d.op = 0 → n ≠ d.regs.r.rd)
    (hI : d.op ≠ 0 ∧ d.op ≠ 2 ∧ d.op ≠ 3 → n ≠ d.regs.i.rt)
    (hJ : d.op = 3 → n ≠ 31) :
    (RegWrite d val cr mips).1.registers n = mips.registers n
    ∧ (RegWrite d val cr mips).1.pc = mips.pc
    ∧ (RegWrite d val cr mips).1.memory = mips.memory := by
  by_cases h0 : d.op = 0
  · rw [RegWrite_R d val cr mips h0]
    exact ⟨setReg_other _ _ _ _ (hR h0), rfl, rfl⟩
  by_cases h3 : d.op = 3
  · rw [RegWrite_jal d val cr mips h3]
    exact ⟨setReg_other _ _ _ _ (hJ h3), rfl, rfl⟩
  by_cases h2 : d.op = 2
  · rw [RegWrite_j d val cr mips h2]
    exact ⟨rfl, rfl, rfl⟩
  · rw [RegWrite_I d val cr mips h0 h2 h3]
    exact ⟨setReg_other _ _ _ _ (hI ⟨h0, h2, h3⟩), rfl, rfl⟩

/-- The frame of C20 at `addiu $7, $9, 8` with the value 108: register 9, which is not the
written register 7, keeps its 100. -/
theorem C20_regwrite_changes_at_most_one_register_witness :
    ((sampleInstr.op = 0 → (9 : Int) ≠ sampleInstr.regs.r.rd)
      ∧ (sampleInstr.op ≠ 0 ∧ sampleInstr.op ≠ 2 ∧ sampleInstr.op ≠ 3 →
          (9 : Int) ≠ sampleInstr.regs.i.rt)
      ∧ (sampleInstr.op = 3 → (9 : Int) ≠ 31))
    ∧ sampleComputer.registers 9 = 100
    ∧ ((RegWrite sampleInstr 108 (-1) sampleComputer).1.registers 9 = sampleComputer.registers 9
      ∧ (RegWrite sampleInstr 108 (-1) sampleComputer).1.pc = sampleComputer.pc
      ∧ (RegWrite sampleInstr 108 (-1) sampleComputer).1.memory = sampleComputer.memory) :=
  ⟨⟨by decide, by decide, by decide⟩, rfl,
    C20_regwrite_changes_at_most_one_register sampleInstr 108 (-1) sampleComputer 9
      (by decide) (by decide) (by decide)⟩

/-- C21: the PC is always word-aligned. Starting from the state in which `Simulate` enters its
loop (PC `0x00400000`), after any finite number of iterations in which `Decode` accepted the
fetched word, whatever the memory contents, the register values and the indeterminate values
met on the way, the PC is a multiple of 4. -/
theorem C21_pc_stays_word_aligned (mips : Computer) (d : DecodedInstr)
    (inputs : List (Int × Int)) (t : SimState)
    (hrun : Simulate.iterations inputs (Simulate.start mips d) = some t) :
    t.mips.pc % 4 = 0 :=
  iterations_aligned inputs (Simulate.start mips d) t hrun
    (show (0x00400000 : Int) % 4 = 0 by decide)

/-- The invariant of C21 on two iterations over a zeroed memory (the word 0 is `sll $0, $0, 0`):
the PC reaches `0x00400008`. -/
theorem C21_pc_stays_word_aligned_witness :
    Simulate.iterations [(0, 7), (0, 7)] (Simulate.start sampleComputer sampleInstr)
      = some (cycleStages (Decode_Op (toInt32 0) (Decode_Op (toInt32 0) sampleInstr 0) 0) 7
          (cycleStages (Decode_Op (toInt32 0) sampleInstr 0) 7
            (Simulate.start sampleComputer sampleInstr)))
    ∧ (cycleStages (Decode_Op (toInt32 0) (Decode_Op (toInt32 0) sampleInstr 0) 0) 7
          (cycleStages (Decode_Op (toInt32 0) sampleInstr 0) 7
            (Simulate.start sampleComputer sampleInstr))).mips.pc = 0x00400008
    ∧ (cycleStages (Decode_Op (toInt32 0) (Decode_Op (toInt32 0) sampleInstr 0) 0) 7
          (cycleStages (Decode_Op (toInt32 0) sampleInstr 0) 7
            (Simulate.start sampleComputer sampleInstr))).mips.pc % 4 = 0 :=
  ⟨rfl, rfl, C21_pc_stays_word_aligned sampleComputer sampleInstr [(0, 7), (0, 7)] _ rfl⟩

end MarsSim
